import Mathlib

/-!
Expression trees from infix expressions (`infixExp.c`)

A shallow embedding of the parser, printer and evaluator of `infixExp.c`.

* A token list (`List` in C, a NULL-terminated linked list) is a Lean `List Token`;
  the NULL pointer is `[]`.
* An expression tree (`ExpTree`, a nullable pointer to a node) is the inductive type
  `ExpTree`, with `ExpTree.null` for the NULL pointer.
* The parsing functions take `List *lp` and `ExpTree *tp` and return an `int`; here they
  return an `Outcome` recording the return value, the cursor left in `*lp`, what was
  stored in `*tp`, and how many nodes were allocated and freed during the call.
* `valueOperatorPM` evaluates `(*lp)->tt` on its failure path without a NULL test; on an
  empty cursor this is a NULL dereference, recorded as `Outcome.crash`.
* The text that the parsing functions write with `printf` while they run (`x`, `xx`, the
  0 or 1 of `valueOperatorPM`) is not recorded; only the evaluation of its argument is.
* `valueExpTree` computes in the C type `double`; its operations are the fields of an
  `Arith` structure, so that every statement about it holds for any arithmetic, and
  `ratArith` (exact rationals) is used for concrete evaluations.
-/

namespace InfixExp

/-! ## Data model -/

/-- Modelled from the spec: a token of the external scanner (`scanner.h` is absent): a
tagged value that is a Number (numeric value), an Identifier (text) or a Symbol (one
character). The tag `tt` and the union member `t` of a list node are one constructor. -/
inductive Token where
  | number (n : Int)
  | identifier (s : String)
  | symbol (c : Char)
deriving DecidableEq, Repr

/-- Expression tree: `null` is the NULL pointer; a node carries its tag `tt` together
with the union member written for that tag, and the two child pointers `left`, `right`
(the fields set by `newExpTreeNode`). -/
inductive ExpTree where
  | null
  | number (n : Int) (left right : ExpTree)
  | identifier (s : String) (left right : ExpTree)
  | symbol (c : Char) (left right : ExpTree)
deriving DecidableEq, Repr

/-- Allocation of a node (`newExpTreeNode(tt, t, tL, tR)`); the allocation is assumed
to succeed (`assert (new!=NULL)`). -/
def newExpTreeNode (t : Token) (tL tR : ExpTree) : ExpTree :=
  match t with
  | .number n => .number n tL tR
  | .identifier s => .identifier s tL tR
  | .symbol c => .symbol c tL tR

/-- Release of a tree (`freeExpTree`): the result is the number of nodes handed to
`free`; nothing happens on NULL. -/
def freeExpTree : ExpTree → Nat
  | .null => 0
  | .number _ l r => freeExpTree l + freeExpTree r + 1
  | .identifier _ l r => freeExpTree l + freeExpTree r + 1
  | .symbol _ l r => freeExpTree l + freeExpTree r + 1

/-! ## Token recognizers

A recognizer returns the extracted value (`some` for return value 1, `none` for 0)
together with the cursor it leaves in `*lp`. -/

/-- Modelled from the spec: the `number` recognizer `valueNumber` (defined outside
`infixExp.c`): on a Number token it extracts the value and advances past it, otherwise
it fails and leaves the cursor unmodified. -/
def valueNumber (lp : List Token) : Option Int × List Token :=
  match lp with
  | .number n :: next => (some n, next)
  | _ => (none, lp)

/-- Modelled from the spec: the `exact-character(c)` recognizer `acceptCharacter`
(defined outside `infixExp.c`): on a Symbol token with character `c` it advances past it,
otherwise it fails and leaves the cursor unmodified. -/
def acceptCharacter (lp : List Token) (c : Char) : Bool × List Token :=
  match lp with
  | .symbol d :: next => if d = c then (true, next) else (false, lp)
  | _ => (false, lp)

/-- Recognizer `valueIdentifier`. -/
def valueIdentifier (lp : List Token) : Option String × List Token :=
  match lp with
  | .identifier s :: next => (some s, next)
  | _ => (none, lp)

/-- Character test `isOperatorTD`. -/
def isOperatorTD (c : Char) : Bool := c == '*' || c == '/'

/-- Character test `isOperatorPM`. -/
def isOperatorPM (c : Char) : Bool := c == '+' || c == '-'

/-- Recognizer `valueOperatorTD`. -/
def valueOperatorTD (lp : List Token) : Option Char × List Token :=
  match lp with
  | .symbol c :: next => if isOperatorTD c then (some c, next) else (none, lp)
  | _ => (none, lp)

/-- Recognizer `valueOperatorPM`. When the guarded branch is not taken the function
evaluates `(*lp)->tt == Symbol` for its `printf` before returning 0; on the empty cursor
that reads through NULL, which is the outer `none`. -/
def valueOperatorPM (lp : List Token) : Option (Option Char × List Token) :=
  match lp with
  | .symbol c :: next => if isOperatorPM c then some (some c, next) else some (none, lp)
  | [] => none
  | _ :: _ => some (none, lp)

/-! ## The backtracking parser -/

/-- What a call of `treeFactor`, `treeTerm` or `treeExpression` does.
* `crash`: the call does not return (NULL dereference in `valueOperatorPM`);
* `timeout`: the recursion budget of the model ran out (never the case for
  `treeExpression`, see `treeExpression_ne_timeout`);
* `fail lp tp allocs frees`: return value 0, with `*lp = lp` on return, `tp` the tree
  stored in `*tp` during the call (if any);
* `ok lp t allocs frees`: return value 1, with `*lp = lp` and `*tp = t` on return.
`allocs` counts the calls of `newExpTreeNode` and `frees` the nodes released by
`freeExpTree` during the call. -/
inductive Outcome where
  | crash
  | timeout
  | fail (lp : List Token) (tp : Option ExpTree) (allocs frees : Nat)
  | ok (lp : List Token) (t : ExpTree) (allocs frees : Nat)
deriving DecidableEq, Repr

/-- Tree and remaining cursor of a successful call. -/
def Outcome.result : Outcome → Option (ExpTree × List Token)
  | .ok lp t _ _ => some (t, lp)
  | _ => none

/-- The call returned 0. -/
def Outcome.failed : Outcome → Bool
  | .fail _ _ _ _ => true
  | _ => false

/-- The cursor in `*lp` when the call returns. -/
def Outcome.cursor : Outcome → Option (List Token)
  | .fail lp _ _ _ => some lp
  | .ok lp _ _ _ => some lp
  | _ => none

/-- Body of `treeFactor(lp, tp)`; `expr` stands for the call of `treeExpression`.
The value `w` of a Number token is an integer, on which `t.number = (int)w` is the
identity. On the paths that return 0 after `(` was accepted the cursor `*lp` has moved,
and after the inner expression was parsed `*tp` holds its tree. -/
def treeFactorWith (expr : List Token → Outcome) (lp : List Token) : Outcome :=
  match valueNumber lp with
  | (some w, lp1) => .ok lp1 (newExpTreeNode (.number w) .null .null) 1 0
  | (none, lp1) =>
    match valueIdentifier lp1 with
    | (some s, lp2) => .ok lp2 (newExpTreeNode (.identifier s) .null .null) 1 0
    | (none, lp2) =>
      match acceptCharacter lp2 '(' with
      | (false, lp3) => .fail lp3 none 0 0
      | (true, lp3) =>
        match expr lp3 with
        | .crash => .crash
        | .timeout => .timeout
        | .fail lp4 tp a f => .fail lp4 tp a f
        | .ok lp4 t a f =>
          match acceptCharacter lp4 ')' with
          | (true, lp5) => .ok lp5 t a f
          | (false, lp5) => .fail lp5 (some t) a f

/-- The `else` branch of `treeTerm`: `freeExpTree(tL); copyL = *lp;` and the retry
`treeFactor(&copyL, tp)`; `a`, `f` are the allocations and frees made so far. -/
def treeTermElse (expr : List Token → Outcome) (lp : List Token) (tL : ExpTree)
    (a f : Nat) : Outcome :=
  match treeFactorWith expr lp with
  | .crash => .crash
  | .timeout => .timeout
  | .ok copyL t a3 f3 => .ok copyL t (a + a3) (f + freeExpTree tL + f3)
  | .fail _ tp a3 f3 => .fail lp tp (a + a3) (f + freeExpTree tL + f3)

/-- Body of `treeTerm(lp, tp)`. -/
def treeTermWith (expr : List Token → Outcome) (lp : List Token) : Outcome :=
  match treeFactorWith expr lp with
  | .crash => .crash
  | .timeout => .timeout
  | .fail _ _ a f => .fail lp none a f
  | .ok copyL tL a f =>
    match valueOperatorTD copyL with
    | (some c, copyL1) =>
      match treeFactorWith expr copyL1 with
      | .crash => .crash
      | .timeout => .timeout
      | .ok copyL2 tR a2 f2 =>
        .ok copyL2 (newExpTreeNode (.symbol c) tL tR) (a + a2 + 1) (f + f2)
      | .fail _ _ a2 f2 => treeTermElse expr lp tL (a + a2) (f + f2)
    | (none, _) => treeTermElse expr lp tL a f

/-- The `else` branch of `treeExpression`: `freeExpTree(tL); copyL = *lp;` and the
retry `treeTerm(&copyL, tp)`. -/
def treeExpressionElse (expr : List Token → Outcome) (lp : List Token) (tL : ExpTree)
    (a f : Nat) : Outcome :=
  match treeTermWith expr lp with
  | .crash => .crash
  | .timeout => .timeout
  | .ok copyL t a3 f3 => .ok copyL t (a + a3) (f + freeExpTree tL + f3)
  | .fail _ tp a3 f3 => .fail lp tp (a + a3) (f + freeExpTree tL + f3)

/-- Body of `treeExpression(lp, tp)`; `expr` stands for the recursive calls. -/
def treeExpressionBody (expr : List Token → Outcome) (lp : List Token) : Outcome :=
  match treeTermWith expr lp with
  | .crash => .crash
  | .timeout => .timeout
  | .fail _ _ a f => .fail lp none a f
  | .ok copyL tL a f =>
    match valueOperatorPM copyL with
    | none => .crash
    | some (some c, copyL1) =>
      match expr copyL1 with
      | .crash => .crash
      | .timeout => .timeout
      | .ok copyL2 tR a2 f2 =>
        .ok copyL2 (newExpTreeNode (.symbol c) tL tR) (a + a2 + 1) (f + f2)
      | .fail _ _ a2 f2 => treeExpressionElse expr lp tL (a + a2) (f + f2)
    | some (none, _) => treeExpressionElse expr lp tL a f

/-- The function `treeExpression` with a bound on the depth of its recursion. -/
def treeExpressionFuel : Nat → List Token → Outcome
  | 0, _ => .timeout
  | fuel + 1, lp => treeExpressionBody (treeExpressionFuel fuel) lp

/-- The function `treeExpression`. Every recursive call is on a shorter cursor, so a
depth of one more than the number of tokens is never exhausted
(`treeExpression_unfold`, `treeExpression_ne_timeout`). -/
def treeExpression (lp : List Token) : Outcome :=
  treeExpressionFuel (lp.length + 1) lp

/-- The function `treeTerm`. -/
def treeTerm (lp : List Token) : Outcome := treeTermWith treeExpression lp

/-- The function `treeFactor`. -/
def treeFactor (lp : List Token) : Outcome := treeFactorWith treeExpression lp

/-- The acceptance test of the driver `prefExpTrees`:
`treeExpression(&tl1,&t) && tl1==0`; `none` when `treeExpression` does not return. -/
def accepted (tl : List Token) : Option Bool :=
  match treeExpression tl with
  | .ok tl1 _ _ _ => some tl1.isEmpty
  | .fail _ _ _ _ => some false
  | _ => none

/-! ## Printer and evaluator -/

/-- The function `printExpTreeInfix`: `out` is the text written to standard output so
far, the result is the text after the call. `%d` prints the decimal representation. -/
def printExpTreeInfix (tr : ExpTree) (out : String) : String :=
  match tr with
  | .null => out
  | .number n _ _ => out ++ toString n
  | .identifier s _ _ => out ++ s
  | .symbol c l r =>
    let out1 := out ++ "("
    let out2 := printExpTreeInfix l out1
    let out3 := out2 ++ " " ++ String.singleton c ++ " "
    let out4 := printExpTreeInfix r out3
    out4 ++ ")"

/-- The function `isNumerical`; `none` is the failure of `assert(tr!=NULL)`. The right
operand of `&&` is only evaluated when the left one is non-zero. -/
def isNumerical : ExpTree → Option Bool
  | .null => none
  | .number _ _ _ => some true
  | .identifier _ _ _ => some false
  | .symbol _ l r =>
    match isNumerical l with
    | none => none
    | some false => some false
    | some true => isNumerical r

/-- The arithmetic of the C type `double` as used by `valueExpTree`: conversion from
`int`, the four operations and the test `rval != 0` (as `isZero`). -/
structure Arith (D : Type) where
  ofInt : Int → D
  add : D → D → D
  sub : D → D → D
  mul : D → D → D
  div : D → D → D
  isZero : D → Bool

/-- Exact rational arithmetic. -/
def ratArith : Arith ℚ where
  ofInt := fun n => (n : ℚ)
  add := fun x y => x + y
  sub := fun x y => x - y
  mul := fun x y => x * y
  div := fun x y => x / y
  isZero := fun x => decide (x = 0)

/-- The function `valueExpTree`; `none` is abnormal termination (a failed `assert` or
`abort()`). On an Identifier node the function evaluates both children and would then
switch on the `symbol` member of a union that holds a pointer; the model stops there. -/
def valueExpTree {D : Type} (A : Arith D) : ExpTree → Option D
  | .null => none
  | .number n _ _ => some (A.ofInt n)
  | .identifier _ l r =>
    match valueExpTree A l with
    | none => none
    | some _ =>
      match valueExpTree A r with
      | none => none
      | some _ => none
  | .symbol c l r =>
    match valueExpTree A l with
    | none => none
    | some lval =>
      match valueExpTree A r with
      | none => none
      | some rval =>
        if c = '+' then some (A.add lval rval)
        else if c = '-' then some (A.sub lval rval)
        else if c = '*' then some (A.mul lval rval)
        else if c = '/' then (if A.isZero rval then none else some (A.div lval rval))
        else none

/-- The parenthesized alternative of `treeFactor` once `(` is accepted: `o` is the
outcome of `treeExpression` on the tokens after `(`. -/
def closeParen (o : Outcome) : Outcome :=
  match o with
  | .crash => .crash
  | .timeout => .timeout
  | .fail lp4 tp a f => .fail lp4 tp a f
  | .ok lp4 t a f =>
    match acceptCharacter lp4 ')' with
    | (true, lp5) => .ok lp5 t a f
    | (false, lp5) => .fail lp5 (some t) a f

/-- A token that `treeFactor` turns into a leaf: a Number or an Identifier. -/
def Token.isLeaf : Token → Bool
  | .number _ => true
  | .identifier _ => true
  | .symbol _ => false

/-! ## Specification-side definitions -/

/-- The node invariants: a Number or Identifier node has both children NULL, a Symbol
node has two non-NULL children satisfying the invariants; NULL itself is not a tree. -/
def wellShaped : ExpTree → Bool
  | .number _ .null .null => true
  | .identifier _ .null .null => true
  | .symbol _ l r => wellShaped l && wellShaped r
  | _ => false

/-- The tree contains an Identifier node. -/
def hasIdentifier : ExpTree → Bool
  | .null => false
  | .number _ l r => hasIdentifier l || hasIdentifier r
  | .identifier _ _ _ => true
  | .symbol _ l r => hasIdentifier l || hasIdentifier r

/-- Every Symbol node carries one of `+`, `-`, `*`, `/`. -/
def fourOps : ExpTree → Bool
  | .null => true
  | .number _ l r => fourOps l && fourOps r
  | .identifier _ l r => fourOps l && fourOps r
  | .symbol c l r => (c == '+' || c == '-' || c == '*' || c == '/') && fourOps l && fourOps r

/-- The value of a tree as the specification defines it, by recursion on the tree: a
Number leaf has its literal value, a Symbol node combines the values of its children by
sum, difference (left minus right), product or quotient. -/
def specValue {D : Type} (A : Arith D) : ExpTree → D
  | .number n _ _ => A.ofInt n
  | .symbol c l r =>
    if c = '+' then A.add (specValue A l) (specValue A r)
    else if c = '-' then A.sub (specValue A l) (specValue A r)
    else if c = '*' then A.mul (specValue A l) (specValue A r)
    else if c = '/' then A.div (specValue A l) (specValue A r)
    else A.ofInt 0
  | _ => A.ofInt 0

/-- The tree contains a `/` node whose right subtree has value zero. -/
def zeroDivisor {D : Type} (A : Arith D) : ExpTree → Bool
  | .symbol c l r =>
    (c == '/' && A.isZero (specValue A r)) || zeroDivisor A l || zeroDivisor A r
  | _ => false

/-- The fully parenthesized infix rendering as the specification defines it: a Number
in decimal, an Identifier verbatim, a Symbol node as `(left c right)`. -/
def render : ExpTree → String
  | .null => ""
  | .number n _ _ => toString n
  | .identifier s _ _ => s
  | .symbol c l r => "(" ++ render l ++ " " ++ String.singleton c ++ " " ++ render r ++ ")"

/-- The ways in which `valueExpTree` terminates abnormally. -/
inductive EvalFailure where
  | nullTree
  | zeroDivisor
  | invalidOperator
  | wrongMember
deriving DecidableEq, Repr

/-- The function `valueExpTree` with the reason of an abnormal termination recorded:
`nullTree` is the failure of `assert(tr!=NULL)`, `zeroDivisor` the failure of
`assert( rval!=0 )`, `invalidOperator` the `default: abort()` branch, and `wrongMember`
the switch on the `symbol` member of an Identifier node (where `valueExpTree` stops). -/
def valueExpTreeE {D : Type} (A : Arith D) : ExpTree → Except EvalFailure D
  | .null => .error .nullTree
  | .number n _ _ => .ok (A.ofInt n)
  | .identifier _ l r =>
    match valueExpTreeE A l with
    | .error e => .error e
    | .ok _ =>
      match valueExpTreeE A r with
      | .error e => .error e
      | .ok _ => .error .wrongMember
  | .symbol c l r =>
    match valueExpTreeE A l with
    | .error e => .error e
    | .ok lval =>
      match valueExpTreeE A r with
      | .error e => .error e
      | .ok rval =>
        if c = '+' then .ok (A.add lval rval)
        else if c = '-' then .ok (A.sub lval rval)
        else if c = '*' then .ok (A.mul lval rval)
        else if c = '/' then
          (if A.isZero rval then .error .zeroDivisor else .ok (A.div lval rval))
        else .error .invalidOperator

/-- The token sequence of the rendering of a tree: a Number or an Identifier is one
token, a Symbol node is `(`, the tokens of the left child, the operator, the tokens of
the right child, `)`. -/
def toks : ExpTree → List Token
  | .null => []
  | .number n _ _ => [.number n]
  | .identifier s _ _ => [.identifier s]
  | .symbol c l r => [.symbol '('] ++ toks l ++ [.symbol c] ++ toks r ++ [.symbol ')']

/-! ## Unfolding the parser -/

theorem acceptCharacter_true {l l1 : List Token} {c : Char}
    (h : acceptCharacter l c = (true, l1)) : l = .symbol c :: l1 := by
  unfold acceptCharacter at h
  split at h
  · split at h
    · simp at h; subst_vars; rfl
    · simp at h
  · simp at h

theorem acceptCharacter_false {l l1 : List Token} {c : Char}
    (h : acceptCharacter l c = (false, l1)) : l1 = l := by
  unfold acceptCharacter at h
  split at h
  · split at h
    · simp at h
    · simp at h; exact h.symm
  · simp at h; exact h.symm

theorem treeFactorWith_nil (e : List Token → Outcome) :
    treeFactorWith e [] = .fail [] none 0 0 := rfl

theorem treeFactorWith_number (e : List Token → Outcome) (n : Int) (l : List Token) :
    treeFactorWith e (.number n :: l) = .ok l (.number n .null .null) 1 0 := rfl

theorem treeFactorWith_identifier (e : List Token → Outcome) (s : String) (l : List Token) :
    treeFactorWith e (.identifier s :: l) = .ok l (.identifier s .null .null) 1 0 := rfl

theorem treeFactorWith_symbol (e : List Token → Outcome) (c : Char) (l : List Token)
    (h : c ≠ '(') : treeFactorWith e (.symbol c :: l) = .fail (.symbol c :: l) none 0 0 := by
  simp [treeFactorWith, valueNumber, valueIdentifier, acceptCharacter, h]

theorem treeFactorWith_paren (e : List Token → Outcome) (l : List Token) :
    treeFactorWith e (.symbol '(' :: l) = closeParen (e l) := by
  rfl


theorem closeParen_ok {o : Outcome} {l1 : List Token} {t : ExpTree} {a f : Nat}
    (h : closeParen o = .ok l1 t a f) : o = .ok (.symbol ')' :: l1) t a f := by
  cases o with
  | crash => simp [closeParen] at h
  | timeout => simp [closeParen] at h
  | fail lp tp a1 f1 => simp [closeParen] at h
  | ok lp t1 a1 f1 =>
    simp only [closeParen] at h
    rcases hc : acceptCharacter lp ')' with ⟨b, lp5⟩
    rw [hc] at h
    cases b with
    | false => simp at h
    | true =>
      simp at h
      obtain ⟨h1, h2, h3, h4⟩ := h
      subst h1 h2 h3 h4
      rw [acceptCharacter_true hc]

theorem closeParen_timeout {o : Outcome} (h : closeParen o = .timeout) : o = .timeout := by
  cases o with
  | crash => simp [closeParen] at h
  | timeout => rfl
  | fail lp tp a1 f1 => simp [closeParen] at h
  | ok lp t1 a1 f1 =>
    simp only [closeParen] at h
    rcases hc : acceptCharacter lp ')' with ⟨b, lp5⟩
    rw [hc] at h
    cases b <;> simp at h

/-- Monotonicity of the factor layer in the recursive call. -/
theorem treeFactorWith_mono {e e1 : List Token → Outcome}
    (h : ∀ l, e l ≠ .timeout → e1 l = e l) (lp : List Token)
    (hne : treeFactorWith e lp ≠ .timeout) : treeFactorWith e1 lp = treeFactorWith e lp := by
  match lp with
  | [] => rfl
  | .number _ :: _ => rfl
  | .identifier _ :: _ => rfl
  | .symbol c :: l =>
    by_cases hc : c = '('
    · subst hc
      rw [treeFactorWith_paren] at hne ⊢
      rw [treeFactorWith_paren, h l (fun hx => hne (by rw [hx]; rfl))]
    · rw [treeFactorWith_symbol _ _ _ hc, treeFactorWith_symbol _ _ _ hc]

theorem treeFactorWith_ok_length {e : List Token → Outcome}
    (hs : ∀ l l1 t a f, e l = .ok l1 t a f → l1.length < l.length)
    {lp l1 : List Token} {t : ExpTree} {a f : Nat}
    (h : treeFactorWith e lp = .ok l1 t a f) : l1.length < lp.length := by
  match lp with
  | [] => simp [treeFactorWith_nil] at h
  | .number _ :: l =>
    simp only [treeFactorWith_number, Outcome.ok.injEq] at h
    rw [← h.1]; simp
  | .identifier _ :: l =>
    simp only [treeFactorWith_identifier, Outcome.ok.injEq] at h
    rw [← h.1]; simp
  | .symbol c :: l =>
    by_cases hc : c = '('
    · subst hc
      rw [treeFactorWith_paren] at h
      have := hs _ _ _ _ _ (closeParen_ok h)
      simp at this ⊢
      omega
    · simp [treeFactorWith_symbol _ _ _ hc] at h

theorem treeFactorWith_ne_timeout {e : List Token → Outcome} {lp : List Token}
    (ht : ∀ l, l.length < lp.length → e l ≠ .timeout) : treeFactorWith e lp ≠ .timeout := by
  match lp with
  | [] => simp [treeFactorWith_nil]
  | .number _ :: l => simp [treeFactorWith_number]
  | .identifier _ :: l => simp [treeFactorWith_identifier]
  | .symbol c :: l =>
    by_cases hc : c = '('
    · subst hc
      rw [treeFactorWith_paren]
      intro hx
      exact ht l (by simp) (closeParen_timeout hx)
    · simp [treeFactorWith_symbol _ _ _ hc]


theorem valueOperatorTD_some {l l1 : List Token} {c : Char}
    (h : valueOperatorTD l = (some c, l1)) : l = .symbol c :: l1 ∧ isOperatorTD c = true := by
  unfold valueOperatorTD at h
  split at h
  · split at h
    · simp at h; obtain ⟨h1, h2⟩ := h; subst h1 h2; simp [*]
    · simp at h
  · simp at h

theorem valueOperatorPM_some {l l1 : List Token} {c : Char}
    (h : valueOperatorPM l = some (some c, l1)) :
    l = .symbol c :: l1 ∧ isOperatorPM c = true := by
  unfold valueOperatorPM at h
  split at h
  · split at h
    · simp at h; obtain ⟨h1, h2⟩ := h; subst h1 h2; simp [*]
    · simp at h
  · simp at h
  · simp at h

theorem treeTermElse_mono {e e1 : List Token → Outcome}
    (h : ∀ l, e l ≠ .timeout → e1 l = e l) (lp : List Token) (tL : ExpTree) (a f : Nat)
    (hne : treeTermElse e lp tL a f ≠ .timeout) :
    treeTermElse e1 lp tL a f = treeTermElse e lp tL a f := by
  unfold treeTermElse at hne ⊢
  rw [treeFactorWith_mono h lp (fun hx => hne (by rw [hx]))]

theorem treeTermElse_ok_length {e : List Token → Outcome}
    (hs : ∀ l l1 t a f, e l = .ok l1 t a f → l1.length < l.length)
    {lp l1 : List Token} {tL t : ExpTree} {a0 f0 a f : Nat}
    (h : treeTermElse e lp tL a0 f0 = .ok l1 t a f) : l1.length < lp.length := by
  unfold treeTermElse at h
  cases hF : treeFactorWith e lp with
  | crash => simp [hF] at h
  | timeout => simp [hF] at h
  | fail _ _ _ _ => simp [hF] at h
  | ok l2 t2 a2 f2 =>
    simp only [hF, Outcome.ok.injEq] at h
    rw [← h.1]
    exact treeFactorWith_ok_length hs hF

theorem treeTermElse_ne_timeout {e : List Token → Outcome} {lp : List Token}
    (ht : ∀ l, l.length < lp.length → e l ≠ .timeout) (tL : ExpTree) (a f : Nat) :
    treeTermElse e lp tL a f ≠ .timeout := by
  unfold treeTermElse
  have := treeFactorWith_ne_timeout ht
  cases hF : treeFactorWith e lp <;> simp_all

/-- Monotonicity of the term layer in the recursive call. -/
theorem treeTermWith_mono {e e1 : List Token → Outcome}
    (h : ∀ l, e l ≠ .timeout → e1 l = e l) (lp : List Token)
    (hne : treeTermWith e lp ≠ .timeout) : treeTermWith e1 lp = treeTermWith e lp := by
  unfold treeTermWith at hne ⊢
  rw [treeFactorWith_mono h lp (fun hx => hne (by rw [hx]))]
  cases hF : treeFactorWith e lp with
  | crash => rfl
  | timeout => rfl
  | fail _ _ _ _ => rfl
  | ok copyL tL a f =>
    simp only [hF] at hne ⊢
    rcases hv : valueOperatorTD copyL with ⟨_ | c, copyL1⟩
    · simp only [hv] at hne ⊢
      exact treeTermElse_mono h _ _ _ _ hne
    · simp only [hv] at hne ⊢
      rw [treeFactorWith_mono h copyL1 (fun hx => hne (by rw [hx]))]
      cases hR : treeFactorWith e copyL1 with
      | crash => rfl
      | timeout => rfl
      | ok _ _ _ _ => rfl
      | fail _ _ a2 f2 =>
        simp only [hR] at hne ⊢
        exact treeTermElse_mono h _ _ _ _ hne

theorem treeTermWith_ok_length {e : List Token → Outcome}
    (hs : ∀ l l1 t a f, e l = .ok l1 t a f → l1.length < l.length)
    {lp l1 : List Token} {t : ExpTree} {a f : Nat}
    (h : treeTermWith e lp = .ok l1 t a f) : l1.length < lp.length := by
  unfold treeTermWith at h
  cases hF : treeFactorWith e lp with
  | crash => simp [hF] at h
  | timeout => simp [hF] at h
  | fail _ _ _ _ => simp [hF] at h
  | ok copyL tL a0 f0 =>
    simp only [hF] at h
    have hlen := treeFactorWith_ok_length hs hF
    rcases hv : valueOperatorTD copyL with ⟨_ | c, copyL1⟩
    · simp only [hv] at h
      exact treeTermElse_ok_length hs h
    · simp only [hv] at h
      cases hR : treeFactorWith e copyL1 with
      | crash => simp [hR] at h
      | timeout => simp [hR] at h
      | fail _ _ a2 f2 =>
        simp only [hR] at h
        exact treeTermElse_ok_length hs h
      | ok copyL2 tR a2 f2 =>
        simp only [hR, Outcome.ok.injEq] at h
        have h2 := treeFactorWith_ok_length hs hR
        have h3 := (valueOperatorTD_some hv).1
        rw [h3] at hlen
        simp at hlen
        rw [← h.1]
        omega

theorem treeTermWith_ne_timeout {e : List Token → Outcome}
    (hs : ∀ l l1 t a f, e l = .ok l1 t a f → l1.length < l.length)
    {lp : List Token}
    (ht : ∀ l, l.length < lp.length → e l ≠ .timeout) : treeTermWith e lp ≠ .timeout := by
  unfold treeTermWith
  have h0 := treeFactorWith_ne_timeout ht
  cases hF : treeFactorWith e lp with
  | crash => simp
  | timeout => exact absurd hF h0
  | fail _ _ _ _ => simp
  | ok copyL tL a0 f0 =>
    simp only
    have hlen := treeFactorWith_ok_length hs hF
    rcases hv : valueOperatorTD copyL with ⟨_ | c, copyL1⟩
    · simp only
      exact treeTermElse_ne_timeout ht _ _ _
    · simp only
      have h3 := (valueOperatorTD_some hv).1
      rw [h3] at hlen
      simp at hlen
      have h1 : treeFactorWith e copyL1 ≠ .timeout :=
        treeFactorWith_ne_timeout (fun l hl => ht l (by omega))
      cases hR : treeFactorWith e copyL1 with
      | crash => simp
      | timeout => exact absurd hR h1
      | fail _ _ a2 f2 =>
        simp only
        exact treeTermElse_ne_timeout ht _ _ _
      | ok copyL2 tR a2 f2 => simp


theorem treeExpressionElse_mono {e e1 : List Token → Outcome}
    (h : ∀ l, e l ≠ .timeout → e1 l = e l) (lp : List Token) (tL : ExpTree) (a f : Nat)
    (hne : treeExpressionElse e lp tL a f ≠ .timeout) :
    treeExpressionElse e1 lp tL a f = treeExpressionElse e lp tL a f := by
  unfold treeExpressionElse at hne ⊢
  rw [treeTermWith_mono h lp (fun hx => hne (by rw [hx]))]

theorem treeExpressionElse_ok_length {e : List Token → Outcome}
    (hs : ∀ l l1 t a f, e l = .ok l1 t a f → l1.length < l.length)
    {lp l1 : List Token} {tL t : ExpTree} {a0 f0 a f : Nat}
    (h : treeExpressionElse e lp tL a0 f0 = .ok l1 t a f) : l1.length < lp.length := by
  unfold treeExpressionElse at h
  cases hF : treeTermWith e lp with
  | crash => simp [hF] at h
  | timeout => simp [hF] at h
  | fail _ _ _ _ => simp [hF] at h
  | ok l2 t2 a2 f2 =>
    simp only [hF, Outcome.ok.injEq] at h
    rw [← h.1]
    exact treeTermWith_ok_length hs hF

theorem treeExpressionElse_ne_timeout {e : List Token → Outcome}
    (hs : ∀ l l1 t a f, e l = .ok l1 t a f → l1.length < l.length) {lp : List Token}
    (ht : ∀ l, l.length < lp.length → e l ≠ .timeout) (tL : ExpTree) (a f : Nat) :
    treeExpressionElse e lp tL a f ≠ .timeout := by
  unfold treeExpressionElse
  have := treeTermWith_ne_timeout hs ht
  cases hF : treeTermWith e lp <;> simp_all

/-- Monotonicity of the body of `treeExpression` in its recursive calls. -/
theorem treeExpressionBody_mono {e e1 : List Token → Outcome}
    (h : ∀ l, e l ≠ .timeout → e1 l = e l) (lp : List Token)
    (hne : treeExpressionBody e lp ≠ .timeout) :
    treeExpressionBody e1 lp = treeExpressionBody e lp := by
  unfold treeExpressionBody at hne ⊢
  rw [treeTermWith_mono h lp (fun hx => hne (by rw [hx]))]
  cases hF : treeTermWith e lp with
  | crash => rfl
  | timeout => rfl
  | fail _ _ _ _ => rfl
  | ok copyL tL a f =>
    simp only [hF] at hne ⊢
    rcases hv : valueOperatorPM copyL with _ | ⟨_ | c, copyL1⟩
    · rfl
    · simp only [hv] at hne ⊢
      exact treeExpressionElse_mono h _ _ _ _ hne
    · simp only [hv] at hne ⊢
      rw [h copyL1 (fun hx => hne (by rw [hx]))]
      cases hR : e copyL1 with
      | crash => rfl
      | timeout => rfl
      | ok _ _ _ _ => rfl
      | fail _ _ a2 f2 =>
        simp only [hR] at hne ⊢
        exact treeExpressionElse_mono h _ _ _ _ hne

theorem treeExpressionBody_ok_length {e : List Token → Outcome}
    (hs : ∀ l l1 t a f, e l = .ok l1 t a f → l1.length < l.length)
    {lp l1 : List Token} {t : ExpTree} {a f : Nat}
    (h : treeExpressionBody e lp = .ok l1 t a f) : l1.length < lp.length := by
  unfold treeExpressionBody at h
  cases hF : treeTermWith e lp with
  | crash => simp [hF] at h
  | timeout => simp [hF] at h
  | fail _ _ _ _ => simp [hF] at h
  | ok copyL tL a0 f0 =>
    simp only [hF] at h
    have hlen := treeTermWith_ok_length hs hF
    rcases hv : valueOperatorPM copyL with _ | ⟨_ | c, copyL1⟩
    · simp [hv] at h
    · simp only [hv] at h
      exact treeExpressionElse_ok_length hs h
    · simp only [hv] at h
      cases hR : e copyL1 with
      | crash => simp [hR] at h
      | timeout => simp [hR] at h
      | fail _ _ a2 f2 =>
        simp only [hR] at h
        exact treeExpressionElse_ok_length hs h
      | ok copyL2 tR a2 f2 =>
        simp only [hR, Outcome.ok.injEq] at h
        have h2 := hs _ _ _ _ _ hR
        have h3 := (valueOperatorPM_some hv).1
        rw [h3] at hlen
        simp at hlen
        rw [← h.1]
        omega

theorem treeExpressionBody_ne_timeout {e : List Token → Outcome}
    (hs : ∀ l l1 t a f, e l = .ok l1 t a f → l1.length < l.length)
    {lp : List Token}
    (ht : ∀ l, l.length < lp.length → e l ≠ .timeout) :
    treeExpressionBody e lp ≠ .timeout := by
  unfold treeExpressionBody
  have h0 := treeTermWith_ne_timeout hs ht
  cases hF : treeTermWith e lp with
  | crash => simp
  | timeout => exact absurd hF h0
  | fail _ _ _ _ => simp
  | ok copyL tL a0 f0 =>
    simp only
    have hlen := treeTermWith_ok_length hs hF
    rcases hv : valueOperatorPM copyL with _ | ⟨_ | c, copyL1⟩
    · simp
    · simp only
      exact treeExpressionElse_ne_timeout hs ht _ _ _
    · simp only
      have h3 := (valueOperatorPM_some hv).1
      rw [h3] at hlen
      simp at hlen
      have h1 : e copyL1 ≠ .timeout := ht _ (by omega)
      cases hR : e copyL1 with
      | crash => simp
      | timeout => exact absurd hR h1
      | fail _ _ a2 f2 =>
        simp only
        exact treeExpressionElse_ne_timeout hs ht _ _ _
      | ok copyL2 tR a2 f2 => simp

/-- A successful bounded call returns a strictly shorter cursor. -/
theorem treeExpressionFuel_ok_length (n : Nat) :
    ∀ l l1 t a f, treeExpressionFuel n l = .ok l1 t a f → l1.length < l.length := by
  induction n with
  | zero => intro l l1 t a f h; simp [treeExpressionFuel] at h
  | succ n ih =>
    intro l l1 t a f h
    exact treeExpressionBody_ok_length ih h

/-- One more level of recursion does not change a result already obtained. -/
theorem treeExpressionFuel_succ (n : Nat) :
    ∀ l, treeExpressionFuel n l ≠ .timeout →
      treeExpressionFuel (n + 1) l = treeExpressionFuel n l := by
  induction n with
  | zero => intro l h; simp [treeExpressionFuel] at h
  | succ n ih =>
    intro l h
    exact treeExpressionBody_mono ih l h

theorem treeExpressionFuel_le {n m : Nat} (hnm : n ≤ m) (l : List Token)
    (h : treeExpressionFuel n l ≠ .timeout) :
    treeExpressionFuel m l = treeExpressionFuel n l := by
  induction m with
  | zero =>
    have : n = 0 := by omega
    subst this; rfl
  | succ m ih =>
    by_cases hm : n = m + 1
    · subst hm; rfl
    · have h1 := ih (by omega)
      rw [treeExpressionFuel_succ m l (by rw [h1]; exact h), h1]

/-- A recursion depth above the number of tokens is never exhausted. -/
theorem treeExpressionFuel_ne_timeout (n : Nat) :
    ∀ l : List Token, l.length < n → treeExpressionFuel n l ≠ .timeout := by
  induction n with
  | zero => intro l h; omega
  | succ n ih =>
    intro l h
    exact treeExpressionBody_ne_timeout (treeExpressionFuel_ok_length n)
      (fun l1 h1 => ih l1 (by omega))

theorem treeExpression_eq_fuel (n : Nat) (l : List Token)
    (h : treeExpressionFuel n l ≠ .timeout) : treeExpression l = treeExpressionFuel n l := by
  unfold treeExpression
  rcases Nat.le_total n (l.length + 1) with h1 | h1
  · exact treeExpressionFuel_le h1 l h
  · exact (treeExpressionFuel_le h1 l (treeExpressionFuel_ne_timeout _ l (by omega))).symm

/-- The function `treeExpression` never exhausts its recursion bound. -/
theorem treeExpression_ne_timeout (l : List Token) : treeExpression l ≠ .timeout :=
  treeExpressionFuel_ne_timeout _ l (by omega)

/-- The function `treeExpression` satisfies the recursive equation of the C function. -/
theorem treeExpression_unfold (lp : List Token) :
    treeExpression lp = treeExpressionBody treeExpression lp := by
  have h1 : treeExpression lp = treeExpressionBody (treeExpressionFuel lp.length) lp := rfl
  rw [h1]
  exact (treeExpressionBody_mono (fun l hl => treeExpression_eq_fuel _ l hl) lp
    (by rw [← h1]; exact treeExpression_ne_timeout lp)).symm

theorem treeExpression_ok_length {l l1 : List Token} {t : ExpTree} {a f : Nat}
    (h : treeExpression l = .ok l1 t a f) : l1.length < l.length :=
  treeExpressionFuel_ok_length _ _ _ _ _ _ h

theorem treeTerm_ne_timeout (l : List Token) : treeTerm l ≠ .timeout :=
  treeTermWith_ne_timeout (fun _ _ _ _ _ h => treeExpression_ok_length h)
    (fun l1 _ => treeExpression_ne_timeout l1)

theorem treeFactor_ne_timeout (l : List Token) : treeFactor l ≠ .timeout :=
  treeFactorWith_ne_timeout (fun l1 _ => treeExpression_ne_timeout l1)


theorem isOperatorTD_cases {c : Char} (h : isOperatorTD c = true) : c = '*' ∨ c = '/' := by
  simpa [isOperatorTD] using h

theorem isOperatorPM_cases {c : Char} (h : isOperatorPM c = true) : c = '+' ∨ c = '-' := by
  simpa [isOperatorPM] using h

/-! ## Trees -/

theorem wellShaped_number {n : Int} {l r : ExpTree} (h : wellShaped (.number n l r) = true) :
    l = .null ∧ r = .null := by
  cases l <;> cases r <;> simp [wellShaped] at h ⊢

theorem wellShaped_symbol {c : Char} {l r : ExpTree} (h : wellShaped (.symbol c l r) = true) :
    wellShaped l = true ∧ wellShaped r = true := by
  simpa [wellShaped] using h

theorem valueExpTree_dichotomy {D : Type} (A : Arith D) (t : ExpTree)
    (hs : wellShaped t = true) (hn : hasIdentifier t = false) (ho : fourOps t = true) :
    (valueExpTree A t = none ∧ zeroDivisor A t = true) ∨
      (valueExpTree A t = some (specValue A t) ∧ zeroDivisor A t = false) := by
  induction t with
  | null => simp [wellShaped] at hs
  | number n l r _ _ => exact Or.inr ⟨rfl, rfl⟩
  | identifier s l r _ _ => simp [hasIdentifier] at hn
  | symbol c l r ihl ihr =>
    obtain ⟨hsl, hsr⟩ := wellShaped_symbol hs
    simp only [hasIdentifier, Bool.or_eq_false_iff] at hn
    simp only [fourOps, Bool.and_eq_true, Bool.or_eq_true, beq_iff_eq] at ho
    rcases ihl hsl hn.1 ho.1.2 with ⟨hl, zl⟩ | ⟨hl, zl⟩
    · exact Or.inl ⟨by simp [valueExpTree, hl], by simp [zeroDivisor, zl]⟩
    · rcases ihr hsr hn.2 ho.2 with ⟨hr, zr⟩ | ⟨hr, zr⟩
      · exact Or.inl ⟨by simp [valueExpTree, hl, hr], by simp [zeroDivisor, zr]⟩
      · simp only [valueExpTree, hl, hr, specValue, zeroDivisor, zl, zr, Bool.or_false]
        rcases ho.1.1 with ((h | h) | h) | h <;> subst h
        · simp
        · simp
        · simp
        · cases hz : A.isZero (specValue A r) <;> simp

theorem valueExpTree_fails_iff {D : Type} (A : Arith D) (t : ExpTree)
    (hs : wellShaped t = true) (hn : hasIdentifier t = false) (ho : fourOps t = true) :
    valueExpTree A t = none ↔ zeroDivisor A t = true := by
  rcases valueExpTree_dichotomy A t hs hn ho with ⟨h1, h2⟩ | ⟨h1, h2⟩
  · simp [h1, h2]
  · simp [h1, h2]

theorem treeFactorWith_inv (P : ExpTree → Prop)
    (hN : ∀ n, P (.number n .null .null)) (hI : ∀ s, P (.identifier s .null .null))
    {e : List Token → Outcome} (he : ∀ l l1 t a f, e l = .ok l1 t a f → P t)
    {lp l1 : List Token} {t : ExpTree} {a f : Nat}
    (h : treeFactorWith e lp = .ok l1 t a f) : P t := by
  match lp with
  | [] => simp [treeFactorWith_nil] at h
  | .number n :: l =>
    simp only [treeFactorWith_number, Outcome.ok.injEq] at h
    rw [← h.2.1]; exact hN n
  | .identifier s :: l =>
    simp only [treeFactorWith_identifier, Outcome.ok.injEq] at h
    rw [← h.2.1]; exact hI s
  | .symbol c :: l =>
    by_cases hc : c = '('
    · subst hc
      rw [treeFactorWith_paren] at h
      exact he _ _ _ _ _ (closeParen_ok h)
    · simp [treeFactorWith_symbol _ _ _ hc] at h

theorem treeTermElse_inv (P : ExpTree → Prop)
    (hN : ∀ n, P (.number n .null .null)) (hI : ∀ s, P (.identifier s .null .null))
    {e : List Token → Outcome} (he : ∀ l l1 t a f, e l = .ok l1 t a f → P t)
    {lp l1 : List Token} {tL t : ExpTree} {a0 f0 a f : Nat}
    (h : treeTermElse e lp tL a0 f0 = .ok l1 t a f) : P t := by
  unfold treeTermElse at h
  cases hF : treeFactorWith e lp with
  | crash => simp [hF] at h
  | timeout => simp [hF] at h
  | fail _ _ _ _ => simp [hF] at h
  | ok l2 t2 a2 f2 =>
    simp only [hF, Outcome.ok.injEq] at h
    rw [← h.2.1]
    exact treeFactorWith_inv P hN hI he hF

theorem treeTermWith_inv (P : ExpTree → Prop)
    (hN : ∀ n, P (.number n .null .null)) (hI : ∀ s, P (.identifier s .null .null))
    (hS : ∀ c l r, (isOperatorTD c = true ∨ isOperatorPM c = true) → P l → P r →
      P (.symbol c l r))
    {e : List Token → Outcome} (he : ∀ l l1 t a f, e l = .ok l1 t a f → P t)
    {lp l1 : List Token} {t : ExpTree} {a f : Nat}
    (h : treeTermWith e lp = .ok l1 t a f) : P t := by
  unfold treeTermWith at h
  cases hF : treeFactorWith e lp with
  | crash => simp [hF] at h
  | timeout => simp [hF] at h
  | fail _ _ _ _ => simp [hF] at h
  | ok copyL tL a0 f0 =>
    simp only [hF] at h
    rcases hv : valueOperatorTD copyL with ⟨_ | c, copyL1⟩
    · simp only [hv] at h
      exact treeTermElse_inv P hN hI he h
    · simp only [hv] at h
      cases hR : treeFactorWith e copyL1 with
      | crash => simp [hR] at h
      | timeout => simp [hR] at h
      | fail _ _ a2 f2 =>
        simp only [hR] at h
        exact treeTermElse_inv P hN hI he h
      | ok copyL2 tR a2 f2 =>
        simp only [hR, Outcome.ok.injEq] at h
        rw [← h.2.1]
        exact hS c tL tR (Or.inl (valueOperatorTD_some hv).2)
          (treeFactorWith_inv P hN hI he hF) (treeFactorWith_inv P hN hI he hR)

theorem treeExpressionElse_inv (P : ExpTree → Prop)
    (hN : ∀ n, P (.number n .null .null)) (hI : ∀ s, P (.identifier s .null .null))
    (hS : ∀ c l r, (isOperatorTD c = true ∨ isOperatorPM c = true) → P l → P r →
      P (.symbol c l r))
    {e : List Token → Outcome} (he : ∀ l l1 t a f, e l = .ok l1 t a f → P t)
    {lp l1 : List Token} {tL t : ExpTree} {a0 f0 a f : Nat}
    (h : treeExpressionElse e lp tL a0 f0 = .ok l1 t a f) : P t := by
  unfold treeExpressionElse at h
  cases hF : treeTermWith e lp with
  | crash => simp [hF] at h
  | timeout => simp [hF] at h
  | fail _ _ _ _ => simp [hF] at h
  | ok l2 t2 a2 f2 =>
    simp only [hF, Outcome.ok.injEq] at h
    rw [← h.2.1]
    exact treeTermWith_inv P hN hI hS he hF

theorem treeExpressionBody_inv (P : ExpTree → Prop)
    (hN : ∀ n, P (.number n .null .null)) (hI : ∀ s, P (.identifier s .null .null))
    (hS : ∀ c l r, (isOperatorTD c = true ∨ isOperatorPM c = true) → P l → P r →
      P (.symbol c l r))
    {e : List Token → Outcome} (he : ∀ l l1 t a f, e l = .ok l1 t a f → P t)
    {lp l1 : List Token} {t : ExpTree} {a f : Nat}
    (h : treeExpressionBody e lp = .ok l1 t a f) : P t := by
  unfold treeExpressionBody at h
  cases hF : treeTermWith e lp with
  | crash => simp [hF] at h
  | timeout => simp [hF] at h
  | fail _ _ _ _ => simp [hF] at h
  | ok copyL tL a0 f0 =>
    simp only [hF] at h
    rcases hv : valueOperatorPM copyL with _ | ⟨_ | c, copyL1⟩
    · simp [hv] at h
    · simp only [hv] at h
      exact treeExpressionElse_inv P hN hI hS he h
    · simp only [hv] at h
      cases hR : e copyL1 with
      | crash => simp [hR] at h
      | timeout => simp [hR] at h
      | fail _ _ a2 f2 =>
        simp only [hR] at h
        exact treeExpressionElse_inv P hN hI hS he h
      | ok copyL2 tR a2 f2 =>
        simp only [hR, Outcome.ok.injEq] at h
        rw [← h.2.1]
        exact hS c tL tR (Or.inr (valueOperatorPM_some hv).2)
          (treeTermWith_inv P hN hI hS he hF) (he _ _ _ _ _ hR)

/-- Induction over the trees returned by `treeExpression`. -/
theorem treeExpression_inv (P : ExpTree → Prop)
    (hN : ∀ n, P (.number n .null .null)) (hI : ∀ s, P (.identifier s .null .null))
    (hS : ∀ c l r, (isOperatorTD c = true ∨ isOperatorPM c = true) → P l → P r →
      P (.symbol c l r))
    {lp l1 : List Token} {t : ExpTree} {a f : Nat}
    (h : treeExpression lp = .ok l1 t a f) : P t := by
  have key : ∀ n l l1 t a f, treeExpressionFuel n l = .ok l1 t a f → P t := by
    intro n
    induction n with
    | zero => intro l l1 t a f h; simp [treeExpressionFuel] at h
    | succ n ih =>
      intro l l1 t a f h
      exact treeExpressionBody_inv P hN hI hS ih h
  exact key _ _ _ _ _ _ h

theorem treeExpression_wellShaped {lp l1 : List Token} {t : ExpTree} {a f : Nat}
    (h : treeExpression lp = .ok l1 t a f) : wellShaped t = true :=
  treeExpression_inv (fun t => wellShaped t = true) (fun _ => rfl) (fun _ => rfl)
    (fun c l r _ hl hr => by simp [wellShaped, hl, hr]) h

/-- A successful retry in the `else` branch of `treeExpression` returns the cursor of
the first `treeTerm` call. -/
theorem treeExpressionElse_cursor {e : List Token → Outcome}
    {lp copyL l1 : List Token} {tL0 tL t : ExpTree} {a0 f0 a1 f1 a f : Nat}
    (hF : treeTermWith e lp = .ok copyL tL0 a0 f0)
    (h : treeExpressionElse e lp tL a1 f1 = .ok l1 t a f) : l1 = copyL := by
  unfold treeExpressionElse at h
  simp only [hF, Outcome.ok.injEq] at h
  exact h.1.symm

theorem treeExpressionBody_cursor_ne_nil {e : List Token → Outcome}
    (he : ∀ l t a f, e l ≠ .ok [] t a f)
    (lp : List Token) (t : ExpTree) (a f : Nat) :
    treeExpressionBody e lp ≠ .ok [] t a f := by
  intro h
  unfold treeExpressionBody at h
  cases hF : treeTermWith e lp with
  | crash => simp [hF] at h
  | timeout => simp [hF] at h
  | fail _ _ _ _ => simp [hF] at h
  | ok copyL tL a0 f0 =>
    simp only [hF] at h
    rcases hv : valueOperatorPM copyL with _ | ⟨_ | c, copyL1⟩
    · simp [hv] at h
    · simp only [hv] at h
      have := treeExpressionElse_cursor hF h
      subst this
      simp [valueOperatorPM] at hv
    · simp only [hv] at h
      cases hR : e copyL1 with
      | crash => simp [hR] at h
      | timeout => simp [hR] at h
      | fail _ _ a2 f2 =>
        simp only [hR] at h
        have := treeExpressionElse_cursor hF h
        subst this
        simp [valueOperatorPM] at hv
      | ok copyL2 tR a2 f2 =>
        simp only [hR, Outcome.ok.injEq] at h
        exact he _ _ _ _ (h.1 ▸ hR)

/-- The function `treeExpression` never returns success with the cursor at
end-of-sequence: reaching the end of the tokens runs into the NULL dereference. -/
theorem treeExpression_cursor_ne_nil (lp : List Token) (t : ExpTree) (a f : Nat) :
    treeExpression lp ≠ .ok [] t a f := by
  have key : ∀ n l t a f, treeExpressionFuel n l ≠ .ok [] t a f := by
    intro n
    induction n with
    | zero => intro l t a f h; simp [treeExpressionFuel] at h
    | succ n ih =>
      intro l t a f
      exact treeExpressionBody_cursor_ne_nil ih l t a f
  exact key _ _ _ _ _

/-- The driver accepts no input at all. -/
theorem accepted_ne_true (tl : List Token) : accepted tl ≠ some true := by
  unfold accepted
  cases h : treeExpression tl with
  | crash => simp
  | timeout => simp
  | fail _ _ _ _ => simp
  | ok tl1 t a f =>
    cases tl1 with
    | nil => exact absurd h (treeExpression_cursor_ne_nil _ _ _ _)
    | cons _ _ => simp

/-! ## Layer lemmas -/

/-- An additive operator followed by a parsable expression: `treeExpression` builds the
operator node with the term as left child and the expression as right child. -/
theorem treeExpression_additive (ts rest r : List Token) (tL tR : ExpTree) (c : Char)
    (h1 : (treeTerm ts).result = some (tL, .symbol c :: rest))
    (hc : isOperatorPM c = true)
    (h2 : (treeExpression rest).result = some (tR, r)) :
    (treeExpression ts).result = some (.symbol c tL tR, r) := by
  rw [treeExpression_unfold]
  unfold treeExpressionBody
  unfold treeTerm at h1
  cases hT : treeTermWith treeExpression ts with
  | crash => simp [hT, Outcome.result] at h1
  | timeout => simp [hT, Outcome.result] at h1
  | fail _ _ _ _ => simp [hT, Outcome.result] at h1
  | ok copyL t0 a f =>
    simp only [hT, Outcome.result, Option.some.injEq, Prod.mk.injEq] at h1
    obtain ⟨h3, h4⟩ := h1
    subst h3 h4
    simp only [valueOperatorPM, hc, if_true]
    cases hE : treeExpression rest with
    | crash => simp [hE, Outcome.result] at h2
    | timeout => simp [hE, Outcome.result] at h2
    | fail _ _ _ _ => simp [hE, Outcome.result] at h2
    | ok copyL2 t2 a2 f2 =>
      simp only [hE, Outcome.result, Option.some.injEq, Prod.mk.injEq] at h2
      obtain ⟨h5, h6⟩ := h2
      subst h5 h6
      rfl

/-- Parentheses add no node: `treeFactor` on `(` followed by tokens on which
`treeExpression` stops at `)` returns the tree of the inner expression. -/
theorem treeFactor_paren (ts r : List Token) (t : ExpTree)
    (h : (treeExpression ts).result = some (t, .symbol ')' :: r)) :
    (treeFactor (.symbol '(' :: ts)).result = some (t, r) := by
  unfold treeFactor
  rw [treeFactorWith_paren]
  cases hE : treeExpression ts with
  | crash => simp [hE, Outcome.result] at h
  | timeout => simp [hE, Outcome.result] at h
  | fail _ _ _ _ => simp [hE, Outcome.result] at h
  | ok l1 t1 a f =>
    simp only [hE, Outcome.result, Option.some.injEq, Prod.mk.injEq] at h
    obtain ⟨h1, h2⟩ := h
    subst h1 h2
    simp [closeParen, acceptCharacter, Outcome.result]

theorem treeTermElse_fail_cursor {e : List Token → Outcome} {lp l : List Token}
    {tL : ExpTree} {tp : Option ExpTree} {a0 f0 a f : Nat}
    (h : treeTermElse e lp tL a0 f0 = .fail l tp a f) : l = lp := by
  unfold treeTermElse at h
  cases hF : treeFactorWith e lp <;> simp [hF] at h
  exact h.1.symm

theorem treeTermWith_fail_cursor {e : List Token → Outcome} {lp l : List Token}
    {tp : Option ExpTree} {a f : Nat}
    (h : treeTermWith e lp = .fail l tp a f) : l = lp := by
  unfold treeTermWith at h
  cases hF : treeFactorWith e lp with
  | crash => simp [hF] at h
  | timeout => simp [hF] at h
  | fail _ _ _ _ =>
    simp only [hF, Outcome.fail.injEq] at h
    exact h.1.symm
  | ok copyL tL a0 f0 =>
    simp only [hF] at h
    rcases hv : valueOperatorTD copyL with ⟨_ | c, copyL1⟩
    · simp only [hv] at h
      exact treeTermElse_fail_cursor h
    · simp only [hv] at h
      cases hR : treeFactorWith e copyL1 with
      | crash => simp [hR] at h
      | timeout => simp [hR] at h
      | ok _ _ _ _ => simp [hR] at h
      | fail _ _ a2 f2 =>
        simp only [hR] at h
        exact treeTermElse_fail_cursor h

theorem treeExpressionElse_fail_cursor {e : List Token → Outcome} {lp l : List Token}
    {tL : ExpTree} {tp : Option ExpTree} {a0 f0 a f : Nat}
    (h : treeExpressionElse e lp tL a0 f0 = .fail l tp a f) : l = lp := by
  unfold treeExpressionElse at h
  cases hF : treeTermWith e lp <;> simp [hF] at h
  exact h.1.symm

theorem treeExpressionBody_fail_cursor {e : List Token → Outcome} {lp l : List Token}
    {tp : Option ExpTree} {a f : Nat}
    (h : treeExpressionBody e lp = .fail l tp a f) : l = lp := by
  unfold treeExpressionBody at h
  cases hF : treeTermWith e lp with
  | crash => simp [hF] at h
  | timeout => simp [hF] at h
  | fail _ _ _ _ =>
    simp only [hF, Outcome.fail.injEq] at h
    exact h.1.symm
  | ok copyL tL a0 f0 =>
    simp only [hF] at h
    rcases hv : valueOperatorPM copyL with _ | ⟨_ | c, copyL1⟩
    · simp [hv] at h
    · simp only [hv] at h
      exact treeExpressionElse_fail_cursor h
    · simp only [hv] at h
      cases hR : e copyL1 with
      | crash => simp [hR] at h
      | timeout => simp [hR] at h
      | ok _ _ _ _ => simp [hR] at h
      | fail _ _ a2 f2 =>
        simp only [hR] at h
        exact treeExpressionElse_fail_cursor h

/-! ## The claims -/

/-- Claim C1: for 1+2+3 the claim asks for the right-associated tree and the cursor at
end-of-sequence. On the code, for all numbers a, b, c, `treeExpression` on the tokens
of a+b+c does not return: after the last term the cursor is empty and `valueOperatorPM`
reads through it. -/
theorem C1_sum_chain_does_not_return (a b c : Int) :
    treeExpression [.number a, .symbol '+', .number b, .symbol '+', .number c] = .crash
      ∧ accepted [.number a, .symbol '+', .number b, .symbol '+', .number c] = none :=
  ⟨rfl, rfl⟩

/-- Claim C2: for leaf tokens a, b, c and multiplicative operators o1, o2,
`treeExpression` on a o1 b o2 c succeeds with the tree Symbol(o1, a, b) and the cursor
left at o2 c, and the acceptance test of the driver rejects the input. -/
theorem C2_term_applies_one_multiplicative_operator (a b c : Token) (o1 o2 : Char)
    (ha : a.isLeaf = true) (hb : b.isLeaf = true) (hc : c.isLeaf = true)
    (h1 : isOperatorTD o1 = true) (h2 : isOperatorTD o2 = true) :
    (treeExpression [a, .symbol o1, b, .symbol o2, c]).result
        = some (.symbol o1 (newExpTreeNode a .null .null) (newExpTreeNode b .null .null),
                [.symbol o2, c])
      ∧ accepted [a, .symbol o1, b, .symbol o2, c] = some false := by
  rcases isOperatorTD_cases h1 with rfl | rfl <;>
    rcases isOperatorTD_cases h2 with rfl | rfl <;>
    cases a <;> cases b <;> cases c <;>
    first
      | (simp [Token.isLeaf] at ha hb hc; done)
      | exact ⟨rfl, rfl⟩

/-- Witness for C2: the tokens of 2*3*4 parse to the tree of 2*3 with `* 4` left over,
and the input is rejected. -/
theorem C2_witness :
    (treeExpression [.number 2, .symbol '*', .number 3, .symbol '*', .number 4]).result
        = some (.symbol '*' (.number 2 .null .null) (.number 3 .null .null),
                [.symbol '*', .number 4])
      ∧ accepted [.number 2, .symbol '*', .number 3, .symbol '*', .number 4] = some false :=
  C2_term_applies_one_multiplicative_operator (.number 2) (.number 3) (.number 4) '*' '*'
    rfl rfl rfl rfl rfl

/-- Claim C3: if `treeFactor` on ts yields tL and a cursor starting with a
multiplicative operator c, and `treeFactor` on the tokens after c yields tR and cursor
r, then `treeTerm` on ts succeeds with the tree Symbol(c, tL, tR) and cursor r. -/
theorem C3_treeTerm_builds_operator_node (ts rest r : List Token) (tL tR : ExpTree)
    (c : Char)
    (h1 : (treeFactor ts).result = some (tL, .symbol c :: rest))
    (hc : isOperatorTD c = true)
    (h2 : (treeFactor rest).result = some (tR, r)) :
    (treeTerm ts).result = some (.symbol c tL tR, r) := by
  unfold treeTerm treeTermWith
  unfold treeFactor at h1 h2
  cases hF : treeFactorWith treeExpression ts with
  | crash => simp [hF, Outcome.result] at h1
  | timeout => simp [hF, Outcome.result] at h1
  | fail _ _ _ _ => simp [hF, Outcome.result] at h1
  | ok copyL t0 a f =>
    simp only [hF, Outcome.result, Option.some.injEq, Prod.mk.injEq] at h1
    obtain ⟨h3, h4⟩ := h1
    subst h3 h4
    simp only [valueOperatorTD, hc, if_true]
    cases hR : treeFactorWith treeExpression rest with
    | crash => simp [hR, Outcome.result] at h2
    | timeout => simp [hR, Outcome.result] at h2
    | fail _ _ _ _ => simp [hR, Outcome.result] at h2
    | ok copyL2 t2 a2 f2 =>
      simp only [hR, Outcome.result, Option.some.injEq, Prod.mk.injEq] at h2
      obtain ⟨h5, h6⟩ := h2
      subst h5 h6
      rfl

/-- Witness for C3: on the tokens of 2*3 `treeTerm` yields Symbol(*, 2, 3) with the
cursor at end-of-sequence, and that tree evaluates to 6. -/
theorem C3_witness :
    (treeFactor [.number 2, .symbol '*', .number 3]).result
        = some (.number 2 .null .null, [.symbol '*', .number 3])
      ∧ (treeTerm [.number 2, .symbol '*', .number 3]).result
        = some (.symbol '*' (.number 2 .null .null) (.number 3 .null .null), [])
      ∧ valueExpTree ratArith (.symbol '*' (.number 2 .null .null) (.number 3 .null .null))
        = some 6 :=
  ⟨rfl,
   C3_treeTerm_builds_operator_node [.number 2, .symbol '*', .number 3] [.number 3] []
     (.number 2 .null .null) (.number 3 .null .null) '*' rfl rfl rfl,
   by simp [valueExpTree, ratArith]; norm_num⟩

/-- Claim C4: the claim asks that (1+2)*3 parse to Symbol(*, Symbol(+, 1, 2), 3). On the
code `treeTerm` builds exactly that tree, rendered ((1 + 2) * 3) with value 9, and
consumes every token, after which `treeExpression` calls `valueOperatorPM` on the empty
cursor and does not return. -/
theorem C4_parenthesized_product_does_not_return :
    treeExpression [.symbol '(', .number 1, .symbol '+', .number 2, .symbol ')',
        .symbol '*', .number 3] = .crash
      ∧ (treeTerm [.symbol '(', .number 1, .symbol '+', .number 2, .symbol ')',
          .symbol '*', .number 3]).result
        = some (.symbol '*' (.symbol '+' (.number 1 .null .null) (.number 2 .null .null))
            (.number 3 .null .null), [])
      ∧ printExpTreeInfix (.symbol '*'
            (.symbol '+' (.number 1 .null .null) (.number 2 .null .null))
            (.number 3 .null .null)) "" = "((1 + 2) * 3)"
      ∧ valueExpTree ratArith (.symbol '*'
            (.symbol '+' (.number 1 .null .null) (.number 2 .null .null))
            (.number 3 .null .null)) = some 9 :=
  ⟨rfl, rfl, rfl, by simp [valueExpTree, ratArith]; norm_num⟩

/-- Claim C5: the claim asks that a one-token input parse to a leaf. On the code, for
every number n and every identifier s, `treeExpression` on the single token does not
return: `treeTerm` consumes the token and `valueOperatorPM` is then called on the empty
cursor. The leaf itself is what `treeTerm` returns, and `isNumerical` is false on an
Identifier leaf. -/
theorem C5_single_token_does_not_return (n : Int) (s : String) :
    treeExpression [.number n] = .crash
      ∧ treeExpression [.identifier s] = .crash
      ∧ (treeTerm [.number n]).result = some (.number n .null .null, [])
      ∧ (treeTerm [.identifier s]).result = some (.identifier s .null .null, [])
      ∧ isNumerical (.identifier s .null .null) = some false :=
  ⟨rfl, rfl, rfl, rfl, rfl⟩


/-- Claim C6: on a tree in which Number and Identifier nodes are leaves and Symbol
nodes have two children (in particular on every tree returned by `treeExpression`),
`isNumerical` returns false if the tree contains an Identifier leaf and true otherwise. -/
theorem C6_isNumerical_decides_identifiers (t : ExpTree) (h : wellShaped t = true) :
    isNumerical t = some (!hasIdentifier t) := by
  induction t with
  | null => simp [wellShaped] at h
  | number n l r _ _ =>
    obtain ⟨rfl, rfl⟩ := wellShaped_number h
    rfl
  | identifier s l r _ _ => simp [isNumerical, hasIdentifier]
  | symbol c l r ihl ihr =>
    obtain ⟨hl, hr⟩ := wellShaped_symbol h
    simp only [isNumerical, ihl hl, ihr hr, hasIdentifier]
    cases hasIdentifier l <;> simp

/-- Witness for C6: the tree of `(1 + x) * 2` is not numerical. -/
theorem C6_witness :
    wellShaped (.symbol '*' (.symbol '+' (.number 1 .null .null) (.identifier "x" .null .null))
        (.number 2 .null .null)) = true
      ∧ isNumerical (.symbol '*'
          (.symbol '+' (.number 1 .null .null) (.identifier "x" .null .null))
          (.number 2 .null .null)) = some false :=
  ⟨rfl, C6_isNumerical_decides_identifiers _ rfl⟩

/-- Claim C7: on a numerical tree whose operators are among `+ - * /` and in which no
`/` node has a right operand of value zero, `valueExpTree` returns the value defined by
recursion on the tree: the literal for a Number leaf, and for a Symbol node the sum,
the difference (left minus right), the product or the quotient of the values of its
children, in the arithmetic of the result type (no truncation to an integer). -/
theorem C7_valueExpTree_is_direct_evaluation {D : Type} (A : Arith D) (t : ExpTree)
    (hs : wellShaped t = true) (hn : hasIdentifier t = false) (ho : fourOps t = true)
    (hz : zeroDivisor A t = false) : valueExpTree A t = some (specValue A t) := by
  rcases valueExpTree_dichotomy A t hs hn ho with ⟨_, h2⟩ | ⟨h1, _⟩
  · rw [hz] at h2; exact absurd h2 (by simp)
  · exact h1

/-- Witness for C7: `(7 - 2) / 2` evaluates to five halves, not to 2. -/
theorem C7_witness :
    valueExpTree ratArith (.symbol '/'
        (.symbol '-' (.number 7 .null .null) (.number 2 .null .null))
        (.number 2 .null .null)) = some (5 / 2 : ℚ) := by
  have h := C7_valueExpTree_is_direct_evaluation ratArith (.symbol '/'
        (.symbol '-' (.number 7 .null .null) (.number 2 .null .null))
        (.number 2 .null .null)) rfl rfl rfl (by simp [zeroDivisor, specValue, ratArith])
  rw [h]
  simp [specValue, ratArith]
  norm_num

/-- Claim C8: the claim asks that the tokens of 4/0 parse successfully and that
evaluation then fails. On the code `treeExpression` on these tokens does not return
(`valueOperatorPM` on the empty cursor); the tree Symbol(/, 4, 0) is what `treeTerm`
returns, it is numerical, and `valueExpTree` fails on it. -/
theorem C8_division_by_zero_input_does_not_return :
    treeExpression [.number 4, .symbol '/', .number 0] = .crash
      ∧ (treeTerm [.number 4, .symbol '/', .number 0]).result
        = some (.symbol '/' (.number 4 .null .null) (.number 0 .null .null), [])
      ∧ isNumerical (.symbol '/' (.number 4 .null .null) (.number 0 .null .null)) = some true
      ∧ valueExpTree ratArith (.symbol '/' (.number 4 .null .null) (.number 0 .null .null))
        = none :=
  ⟨rfl, rfl, rfl, by simp [valueExpTree, ratArith]⟩

/-- Claim C9: `printExpTreeInfix` appends to the output the fully parenthesized infix
string of the tree: a Number in decimal, an Identifier verbatim, a Symbol node as
`(`, the left child, the operator between blanks, the right child, `)`. -/
theorem C9_printExpTreeInfix_emits_render (t : ExpTree) (out : String) :
    printExpTreeInfix t out = out ++ render t := by
  induction t generalizing out with
  | null => simp [printExpTreeInfix, render]
  | number n l r _ _ => rfl
  | identifier s l r _ _ => rfl
  | symbol c l r ihl ihr =>
    simp only [printExpTreeInfix, render, ihl, ihr, String.append_assoc]

/-- Claim C10: when `treeTerm`, respectively `treeExpression`, called with the cursor
at ts returns failure, the cursor of the caller is still ts. -/
theorem C10_failed_parse_keeps_cursor (ts : List Token) :
    ((treeTerm ts).failed = true → (treeTerm ts).cursor = some ts) ∧
      ((treeExpression ts).failed = true → (treeExpression ts).cursor = some ts) := by
  constructor
  · intro h
    cases hT : treeTerm ts with
    | crash => simp [hT, Outcome.failed] at h
    | timeout => simp [hT, Outcome.failed] at h
    | ok _ _ _ _ => simp [hT, Outcome.failed] at h
    | fail l tp a f =>
      unfold treeTerm at hT
      rw [treeTermWith_fail_cursor hT]
      rfl
  · intro h
    cases hT : treeExpression ts with
    | crash => simp [hT, Outcome.failed] at h
    | timeout => simp [hT, Outcome.failed] at h
    | ok _ _ _ _ => simp [hT, Outcome.failed] at h
    | fail l tp a f =>
      rw [treeExpression_unfold] at hT
      rw [treeExpressionBody_fail_cursor hT]
      rfl

/-- Witness for C10: on the tokens `( )` the factor layer fails after it has moved its
own cursor past `(`, and both `treeTerm` and `treeExpression` fail with the cursor of
the caller still at `( )`. -/
theorem C10_witness :
    (treeFactor [.symbol '(', .symbol ')']).cursor = some [.symbol ')']
      ∧ (treeTerm [.symbol '(', .symbol ')']).failed = true
      ∧ (treeTerm [.symbol '(', .symbol ')']).cursor = some [.symbol '(', .symbol ')']
      ∧ (treeExpression [.symbol '(', .symbol ')']).failed = true
      ∧ (treeExpression [.symbol '(', .symbol ')']).cursor
        = some [.symbol '(', .symbol ')'] :=
  ⟨rfl, rfl, (C10_failed_parse_keeps_cursor _).1 rfl, rfl,
   (C10_failed_parse_keeps_cursor _).2 rfl⟩

/-! ## Cursors, output slots and recognizers -/

theorem valueExpTree_eq_valueExpTreeE {D : Type} (A : Arith D) (t : ExpTree) :
    valueExpTree A t = (match valueExpTreeE A t with | .ok v => some v | .error _ => none) := by
  induction t with
  | null => rfl
  | number n l r _ _ => rfl
  | identifier s l r ihl ihr =>
    simp only [valueExpTree, valueExpTreeE, ihl, ihr]
    cases valueExpTreeE A l <;> simp
    cases valueExpTreeE A r <;> simp
  | symbol c l r ihl ihr =>
    simp only [valueExpTree, valueExpTreeE, ihl, ihr]
    cases valueExpTreeE A l <;> simp
    cases valueExpTreeE A r <;> simp
    split_ifs <;> simp

theorem treeFactorWith_fail_cursor (e : List Token → Outcome) (lp l : List Token)
    (tp : Option ExpTree) (a f : Nat) (h : treeFactorWith e lp = .fail l tp a f) :
    (∀ rest, lp ≠ .symbol '(' :: rest) → l = lp := by
  intro hne
  match lp with
  | [] => simp [treeFactorWith_nil] at h; exact h.1
  | .number _ :: _ => simp [treeFactorWith_number] at h
  | .identifier _ :: _ => simp [treeFactorWith_identifier] at h
  | .symbol c :: rest =>
    by_cases hc : c = '('
    · subst hc; exact absurd rfl (hne rest)
    · simp [treeFactorWith_symbol _ _ _ hc] at h; exact h.1.symm

theorem treeExpression_fail_cursor {lp l : List Token} {tp : Option ExpTree} {a f : Nat}
    (h : treeExpression lp = .fail l tp a f) : l = lp := by
  rw [treeExpression_unfold] at h
  exact treeExpressionBody_fail_cursor h

/-- Counterexample for C11: on the tokens `( )` the call of `treeFactor` fails and
leaves the cursor after the `(`. -/
theorem C11_counterexample :
    ¬ (∀ ts : List Token, (treeFactor ts).failed = true → (treeFactor ts).cursor = some ts) := by
  intro h
  have h1 := h [.symbol '(', .symbol ')'] rfl
  exact absurd h1 (by decide)

/-- Claim C11, amended: a failed `treeFactor` leaves the cursor it was given at ts when
ts does not start with `(`. When ts is `(` followed by rest, it leaves the cursor at rest
if `treeExpression` fails on rest, and at the place where the inner expression stopped
if that expression was parsed and no `)` follows. -/
theorem C11_failed_factor_cursor (ts : List Token) (h : (treeFactor ts).failed = true) :
    ((∀ rest, ts ≠ .symbol '(' :: rest) → (treeFactor ts).cursor = some ts) ∧
      (∀ rest, ts = .symbol '(' :: rest →
        ((treeExpression rest).failed = true → (treeFactor ts).cursor = some rest) ∧
        (∀ t r, (treeExpression rest).result = some (t, r) →
          (treeFactor ts).cursor = some r)) := by
  constructor
  · intro hne
    cases hF : treeFactor ts with
    | crash => simp [hF, Outcome.failed] at h
    | timeout => simp [hF, Outcome.failed] at h
    | ok _ _ _ _ => simp [hF, Outcome.failed] at h
    | fail l tp a f =>
      unfold treeFactor at hF
      rw [treeFactorWith_fail_cursor _ _ _ _ _ _ hF hne]
      rfl
  · intro rest hts
    subst hts
    unfold treeFactor at h ⊢
    rw [treeFactorWith_paren] at h ⊢
    constructor
    · intro hE
      cases hR : treeExpression rest with
      | crash => simp [hR, Outcome.failed] at hE
      | timeout => simp [hR, Outcome.failed] at hE
      | ok _ _ _ _ => simp [hR, Outcome.failed] at hE
      | fail l tp a f =>
        have := treeExpression_fail_cursor hR
        subst this
        rfl
    · intro t r hE
      cases hR : treeExpression rest with
      | crash => simp [hR, Outcome.result] at hE
      | timeout => simp [hR, Outcome.result] at hE
      | fail _ _ _ _ => simp [hR, Outcome.result] at hE
      | ok l1 t1 a f =>
        simp only [hR, Outcome.result, Option.some.injEq, Prod.mk.injEq] at hE
        obtain ⟨h1, h2⟩ := hE
        subst h1 h2
        rw [hR] at h
        simp only [closeParen] at h ⊢
        rcases hc : acceptCharacter l1 ')' with ⟨b, lp5⟩
        rw [hc] at h
        cases b with
        | true => simp [Outcome.failed] at h
        | false =>
          simp only [Outcome.cursor]
          rw [acceptCharacter_false hc]

/-- Witness for C11: on `( 1 x` the inner expression is parsed and no `)` follows; the
failed `treeFactor` leaves the cursor at `x`. On `)` it leaves the cursor where it was. -/
theorem C11_witness :
    (treeFactor [.symbol '(', .number 1, .identifier "x"]).failed = true
      ∧ (treeExpression [.number 1, .identifier "x"]).result
          = some (.number 1 .null .null, [.identifier "x"])
      ∧ (treeFactor [.symbol '(', .number 1, .identifier "x"]).cursor
          = some [.identifier "x"]
      ∧ (treeFactor [.symbol ')']).cursor = some [.symbol ')'] :=
  ⟨rfl, rfl,
   ((C11_failed_factor_cursor [.symbol '(', .number 1, .identifier "x"] rfl).2
      [.number 1, .identifier "x"] rfl).2 _ _ rfl,
   (C11_failed_factor_cursor [.symbol ')'] rfl).1 (by simp)⟩

theorem Outcome.result_eq_some {o : Outcome} {t : ExpTree} {r : List Token}
    (h : o.result = some (t, r)) : ∃ a f, o = .ok r t a f := by
  cases o with
  | crash => simp [Outcome.result] at h
  | timeout => simp [Outcome.result] at h
  | fail _ _ _ _ => simp [Outcome.result] at h
  | ok l1 t1 a f =>
    simp only [Outcome.result, Option.some.injEq, Prod.mk.injEq] at h
    obtain ⟨h1, h2⟩ := h
    subst h1 h2
    exact ⟨a, f, rfl⟩

/-- Induction over the trees returned by `treeTerm`. -/
theorem treeTerm_inv (P : ExpTree → Prop)
    (hN : ∀ n, P (.number n .null .null)) (hI : ∀ s, P (.identifier s .null .null))
    (hS : ∀ c l r, (isOperatorTD c = true ∨ isOperatorPM c = true) → P l → P r →
      P (.symbol c l r))
    {lp l1 : List Token} {t : ExpTree} {a f : Nat}
    (h : treeTerm lp = .ok l1 t a f) : P t :=
  treeTermWith_inv P hN hI hS (fun _ _ _ _ _ he => treeExpression_inv P hN hI hS he) h

/-- Induction over the trees returned by `treeFactor`. -/
theorem treeFactor_inv (P : ExpTree → Prop)
    (hN : ∀ n, P (.number n .null .null)) (hI : ∀ s, P (.identifier s .null .null))
    (hS : ∀ c l r, (isOperatorTD c = true ∨ isOperatorPM c = true) → P l → P r →
      P (.symbol c l r))
    {lp l1 : List Token} {t : ExpTree} {a f : Nat}
    (h : treeFactor lp = .ok l1 t a f) : P t :=
  treeFactorWith_inv P hN hI (fun _ _ _ _ _ he => treeExpression_inv P hN hI hS he) h

theorem wellShaped_step (c : Char) (l r : ExpTree)
    (_ : isOperatorTD c = true ∨ isOperatorPM c = true)
    (hl : wellShaped l = true) (hr : wellShaped r = true) :
    wellShaped (.symbol c l r) = true := by
  simp [wellShaped, hl, hr]

theorem fourOps_step (c : Char) (l r : ExpTree)
    (hc : isOperatorTD c = true ∨ isOperatorPM c = true)
    (hl : fourOps l = true) (hr : fourOps r = true) :
    fourOps (.symbol c l r) = true := by
  have : c = '+' ∨ c = '-' ∨ c = '*' ∨ c = '/' := by
    rcases hc with hc | hc
    · rcases isOperatorTD_cases hc with h | h
      · exact Or.inr (Or.inr (Or.inl h))
      · exact Or.inr (Or.inr (Or.inr h))
    · rcases isOperatorPM_cases hc with h | h
      · exact Or.inl h
      · exact Or.inr (Or.inl h)
  rcases this with h | h | h | h <;> subst h <;> simp [fourOps, hl, hr]

/-- Every Symbol node of a tree returned by `treeExpression` carries one of the four
operator characters. -/
theorem treeExpression_fourOps {lp l1 : List Token} {t : ExpTree} {a f : Nat}
    (h : treeExpression lp = .ok l1 t a f) : fourOps t = true :=
  treeExpression_inv (fun t => fourOps t = true) (fun _ => rfl) (fun _ => rfl)
    fourOps_step h

theorem isNumerical_of_wellShaped (t : ExpTree) (h : wellShaped t = true) :
    isNumerical t = some (!hasIdentifier t) := by
  induction t with
  | null => simp [wellShaped] at h
  | number n l r _ _ =>
    obtain ⟨rfl, rfl⟩ := wellShaped_number h
    rfl
  | identifier s l r _ _ => simp [isNumerical, hasIdentifier]
  | symbol c l r ihl ihr =>
    obtain ⟨hl, hr⟩ := wellShaped_symbol h
    simp only [isNumerical, ihl hl, ihr hr, hasIdentifier]
    cases hasIdentifier l <;> simp

/-- On a numerical tree over the four operators the evaluator either returns the value
or stops at the zero-divisor assertion. -/
theorem valueExpTreeE_dichotomy {D : Type} (A : Arith D) (t : ExpTree)
    (hs : wellShaped t = true) (hn : hasIdentifier t = false) (ho : fourOps t = true) :
    valueExpTreeE A t = .error .zeroDivisor ∨ valueExpTreeE A t = .ok (specValue A t) := by
  induction t with
  | null => simp [wellShaped] at hs
  | number n l r _ _ => exact Or.inr rfl
  | identifier s l r _ _ => simp [hasIdentifier] at hn
  | symbol c l r ihl ihr =>
    obtain ⟨hsl, hsr⟩ := wellShaped_symbol hs
    simp only [hasIdentifier, Bool.or_eq_false_iff] at hn
    simp only [fourOps, Bool.and_eq_true, Bool.or_eq_true, beq_iff_eq] at ho
    rcases ihl hsl hn.1 ho.1.2 with hl | hl
    · exact Or.inl (by simp [valueExpTreeE, hl])
    · rcases ihr hsr hn.2 ho.2 with hr | hr
      · exact Or.inl (by simp [valueExpTreeE, hl, hr])
      · simp only [valueExpTreeE, hl, hr, specValue]
        rcases ho.1.1 with ((h | h) | h) | h <;> subst h
        · simp
        · simp
        · simp
        · cases hz : A.isZero (specValue A r) <;> simp

/-- Claim C12: every tree returned by a successful `treeFactor`, `treeTerm` or
`treeExpression` satisfies the node invariants: Number and Identifier nodes have both
children NULL, Symbol nodes have two non-NULL children. -/
theorem C12_parser_trees_satisfy_node_invariants (ts r : List Token) (t : ExpTree) :
    ((treeFactor ts).result = some (t, r) → wellShaped t = true) ∧
      ((treeTerm ts).result = some (t, r) → wellShaped t = true) ∧
      ((treeExpression ts).result = some (t, r) → wellShaped t = true) := by
  refine ⟨fun h => ?_, fun h => ?_, fun h => ?_⟩
  · obtain ⟨a, f, h1⟩ := Outcome.result_eq_some h
    exact treeFactor_inv (fun t => wellShaped t = true) (fun _ => rfl) (fun _ => rfl)
      wellShaped_step h1
  · obtain ⟨a, f, h1⟩ := Outcome.result_eq_some h
    exact treeTerm_inv (fun t => wellShaped t = true) (fun _ => rfl) (fun _ => rfl)
      wellShaped_step h1
  · obtain ⟨a, f, h1⟩ := Outcome.result_eq_some h
    exact treeExpression_wellShaped h1

/-- Witness for C12: the trees returned on the tokens `( 1 + x ) * 2 y` by the factor
layer and by the term and expression layers. -/
theorem C12_witness :
    wellShaped (.symbol '+' (.number 1 .null .null) (.identifier "x" .null .null)) = true
      ∧ wellShaped (.symbol '*'
          (.symbol '+' (.number 1 .null .null) (.identifier "x" .null .null))
          (.number 2 .null .null)) = true :=
  ⟨(C12_parser_trees_satisfy_node_invariants
      [.symbol '(', .number 1, .symbol '+', .identifier "x", .symbol ')', .symbol '*',
        .number 2, .identifier "y"]
      [.symbol '*', .number 2, .identifier "y"] _).1 rfl,
   (C12_parser_trees_satisfy_node_invariants
      [.symbol '(', .number 1, .symbol '+', .identifier "x", .symbol ')', .symbol '*',
        .number 2, .identifier "y"]
      [.identifier "y"] _).2.2 rfl⟩

/-- Claim C13: every Symbol node of a tree returned by a successful `treeExpression`
carries one of `+`, `-`, `*`, `/`; hence, when `isNumerical` holds of that tree, an
abnormal termination of `valueExpTree` on it can only be the zero-divisor assertion,
never `abort()` and never the assertion that the tree is not NULL. -/
theorem C13_invalid_operator_unreachable {D : Type} (A : Arith D) (ts r : List Token)
    (t : ExpTree) (h : (treeExpression ts).result = some (t, r)) :
    fourOps t = true ∧
      (isNumerical t = some true →
        ∀ e, valueExpTreeE A t = .error e → e = .zeroDivisor) := by
  obtain ⟨a, f, h1⟩ := Outcome.result_eq_some h
  have hs := treeExpression_wellShaped h1
  have ho := treeExpression_fourOps h1
  refine ⟨ho, fun hnum e he => ?_⟩
  have hn : hasIdentifier t = false := by
    rw [isNumerical_of_wellShaped t hs] at hnum
    simpa using hnum
  rcases valueExpTreeE_dichotomy A t hs hn ho with hd | hd
  · rw [hd] at he
    simp at he
    exact he.symm
  · rw [hd] at he
    simp at he

/-- Witness for C13: on the tokens `4 / 0 x` the expression layer returns the tree of
`4 / 0`, which is numerical; its evaluation stops at the zero-divisor assertion. -/
theorem C13_witness :
    (treeExpression [.number 4, .symbol '/', .number 0, .identifier "x"]).result
        = some (.symbol '/' (.number 4 .null .null) (.number 0 .null .null),
            [.identifier "x"])
      ∧ fourOps (.symbol '/' (.number 4 .null .null) (.number 0 .null .null)) = true
      ∧ ∀ e, valueExpTreeE ratArith
          (.symbol '/' (.number 4 .null .null) (.number 0 .null .null)) = .error e →
          e = .zeroDivisor :=
  ⟨rfl,
   (C13_invalid_operator_unreachable ratArith
      [.number 4, .symbol '/', .number 0, .identifier "x"] [.identifier "x"] _ rfl).1,
   (C13_invalid_operator_unreachable ratArith
      [.number 4, .symbol '/', .number 0, .identifier "x"] [.identifier "x"] _ rfl).2 rfl⟩

/-- Claim C15: the claim asks that a recognizer which does not match returns failure
with the cursor unmodified, also on the empty cursor. On the empty cursor
`valueIdentifier` and `valueOperatorTD` do so, and `valueOperatorPM` reads the tag of a
token that does not exist and does not return. -/
theorem C15_valueOperatorPM_reads_through_empty_cursor :
    valueOperatorPM [] = none
      ∧ valueOperatorTD [] = (none, [])
      ∧ valueIdentifier [] = (none, []) :=
  ⟨rfl, rfl, rfl⟩

/-- Claim C16: `valueOperatorTD` succeeds exactly when the first token is a Symbol with
character `*` or `/`, `valueOperatorPM` exactly when it is a Symbol with `+` or `-`,
`valueIdentifier` exactly when it is an Identifier; on success the extracted value is
the character, respectively the text, of that token and the cursor is advanced past
that one token. -/
theorem C16_recognizers_match_first_token (lp next : List Token) (c : Char) (s : String) :
    (valueOperatorTD lp = (some c, next) ↔ lp = .symbol c :: next ∧ (c = '*' ∨ c = '/')) ∧
      (valueOperatorPM lp = some (some c, next) ↔
        lp = .symbol c :: next ∧ (c = '+' ∨ c = '-')) ∧
      (valueIdentifier lp = (some s, next) ↔ lp = .identifier s :: next) := by
  have hTD : valueOperatorTD lp = (some c, next) ↔
      lp = .symbol c :: next ∧ (c = '*' ∨ c = '/') := by
    constructor
    · intro hv
      exact ⟨(valueOperatorTD_some hv).1, isOperatorTD_cases (valueOperatorTD_some hv).2⟩
    · rintro ⟨hlp, hop⟩
      subst hlp
      rcases hop with hop | hop <;> subst hop <;> rfl
  have hPM : valueOperatorPM lp = some (some c, next) ↔
      lp = .symbol c :: next ∧ (c = '+' ∨ c = '-') := by
    constructor
    · intro hv
      exact ⟨(valueOperatorPM_some hv).1, isOperatorPM_cases (valueOperatorPM_some hv).2⟩
    · rintro ⟨hlp, hop⟩
      subst hlp
      rcases hop with hop | hop <;> subst hop <;> rfl
  have hId : valueIdentifier lp = (some s, next) ↔ lp = .identifier s :: next := by
    constructor
    · intro hv
      unfold valueIdentifier at hv
      split at hv
      · simp at hv
        obtain ⟨hs, hnext⟩ := hv
        subst hs hnext
        rfl
      · simp at hv
    · intro hlp
      subst hlp
      rfl
  exact ⟨hTD, hPM, hId⟩

/-- Apart from `valueOperatorPM` on the empty cursor, a recognizer that does not match
returns with the cursor unmodified. -/
theorem recognizers_fail_clean (lp l : List Token) :
    (valueIdentifier lp = (none, l) → l = lp) ∧
      (valueOperatorTD lp = (none, l) → l = lp) ∧
      (valueOperatorPM lp = some (none, l) → l = lp) ∧
      (lp ≠ [] → valueOperatorPM lp ≠ none) := by
  have hId : valueIdentifier lp = (none, l) → l = lp := by
    intro hv
    unfold valueIdentifier at hv
    split at hv <;> simp at hv
    exact hv.symm
  have hTD : valueOperatorTD lp = (none, l) → l = lp := by
    intro hv
    unfold valueOperatorTD at hv
    split at hv
    · split at hv <;> simp at hv
      exact hv.symm
    · simp at hv
      exact hv.symm
  have hPM : valueOperatorPM lp = some (none, l) → l = lp := by
    intro hv
    unfold valueOperatorPM at hv
    split at hv
    · split at hv <;> simp at hv
      exact hv.symm
    · simp at hv
    · simp at hv
      exact hv.symm
  have hNil : lp ≠ [] → valueOperatorPM lp ≠ none := by
    intro hlp
    unfold valueOperatorPM
    split
    · split <;> simp
    · exact absurd rfl hlp
    · simp
  exact ⟨hId, hTD, hPM, hNil⟩

/-- Claim C14: the claim asks that a failed call leave no live node and no tree in the
output slot. On the tokens `( 1 + 2 x` the call of `treeFactor` returns failure after 7
allocations and 4 releases, with the tree of `1 + 2` stored in the output slot;
`treeTerm` and `treeExpression` return failure with the same counts, the three nodes
being reachable from no variable. On `2 * ( 1 x` the call of `treeTerm` succeeds with
the leaf 2 after 6 allocations and 4 releases, one live node more than the returned tree
has. On the tokens `( 1 + 2` the call does not return at all. -/
theorem C14_missing_close_paren_leaks :
    treeFactor [.symbol '(', .number 1, .symbol '+', .number 2, .identifier "x"]
        = .fail [.identifier "x"]
            (some (.symbol '+' (.number 1 .null .null) (.number 2 .null .null))) 7 4
      ∧ treeTerm [.symbol '(', .number 1, .symbol '+', .number 2, .identifier "x"]
        = .fail [.symbol '(', .number 1, .symbol '+', .number 2, .identifier "x"] none 7 4
      ∧ treeExpression [.symbol '(', .number 1, .symbol '+', .number 2, .identifier "x"]
        = .fail [.symbol '(', .number 1, .symbol '+', .number 2, .identifier "x"] none 7 4
      ∧ treeTerm [.number 2, .symbol '*', .symbol '(', .number 1, .identifier "x"]
        = .ok [.symbol '*', .symbol '(', .number 1, .identifier "x"]
            (.number 2 .null .null) 6 4
      ∧ treeFactor [.symbol '(', .number 1, .symbol '+', .number 2] = .crash :=
  ⟨rfl, rfl, rfl, rfl, rfl⟩

/-- The multiplicative step of `treeTerm`: two factors around a multiplicative operator
become one operator node. -/
theorem treeTerm_multiplicative (ts rest r : List Token) (tL tR : ExpTree) (c : Char)
    (h1 : (treeFactor ts).result = some (tL, .symbol c :: rest))
    (hc : isOperatorTD c = true)
    (h2 : (treeFactor rest).result = some (tR, r)) :
    (treeTerm ts).result = some (.symbol c tL tR, r) := by
  obtain ⟨a, f, hF⟩ := Outcome.result_eq_some h1
  obtain ⟨a2, f2, hR⟩ := Outcome.result_eq_some h2
  unfold treeFactor at hF hR
  unfold treeTerm treeTermWith
  simp only [hF, valueOperatorTD, hc, if_true, hR]
  rfl

/-- The fallback of `treeTerm`: when the cursor after the first factor does not start
with a multiplicative operator, or `treeFactor` returns failure behind that operator,
the call returns the first factor and the cursor behind it. -/
theorem treeTerm_fallback (ts r : List Token) (t : ExpTree)
    (h1 : (treeFactor ts).result = some (t, r))
    (h2 : ∀ c rest, r = .symbol c :: rest → isOperatorTD c = true →
      (treeFactor rest).failed = true) :
    (treeTerm ts).result = some (t, r) := by
  obtain ⟨a, f, hF⟩ := Outcome.result_eq_some h1
  unfold treeFactor at hF
  unfold treeTerm treeTermWith
  simp only [hF]
  rcases hv : valueOperatorTD r with ⟨_ | c, copyL1⟩
  · simp only [treeTermElse, hF, Outcome.result]
  · obtain ⟨hr, hc⟩ := valueOperatorTD_some hv
    have h3 := h2 c copyL1 hr hc
    unfold treeFactor at h3
    cases hR : treeFactorWith treeExpression copyL1 with
    | crash => simp [hR, Outcome.failed] at h3
    | timeout => simp [hR, Outcome.failed] at h3
    | ok _ _ _ _ => simp [hR, Outcome.failed] at h3
    | fail _ _ _ _ => simp only [hR, treeTermElse, hF, Outcome.result]

/-- The fallback of `treeExpression`: when the cursor after the first term is not
empty and does not start with an additive operator, or `treeExpression` returns failure
behind that operator, the call returns the first term and the cursor behind it. -/
theorem treeExpression_fallback (ts r : List Token) (t : ExpTree)
    (h1 : (treeTerm ts).result = some (t, r)) (hr : r ≠ [])
    (h2 : ∀ c rest, r = .symbol c :: rest → isOperatorPM c = true →
      (treeExpression rest).failed = true) :
    (treeExpression ts).result = some (t, r) := by
  obtain ⟨a, f, hF⟩ := Outcome.result_eq_some h1
  unfold treeTerm at hF
  rw [treeExpression_unfold]
  unfold treeExpressionBody
  simp only [hF]
  rcases hv : valueOperatorPM r with _ | ⟨_ | c, copyL1⟩
  · exact absurd hv ((recognizers_fail_clean r r).2.2.2 hr)
  · simp only [treeExpressionElse, hF, Outcome.result]
  · obtain ⟨hr1, hc⟩ := valueOperatorPM_some hv
    have h3 := h2 c copyL1 hr1 hc
    cases hR : treeExpression copyL1 with
    | crash => simp [hR, Outcome.failed] at h3
    | timeout => simp [hR, Outcome.failed] at h3
    | ok _ _ _ _ => simp [hR, Outcome.failed] at h3
    | fail _ _ _ _ => simp only [hR, treeExpressionElse, hF, Outcome.result]

/-- When `treeTerm` consumes every token, `treeExpression` does not return. -/
theorem treeExpression_crash_of_treeTerm_nil (ts : List Token) (t : ExpTree)
    (h : (treeTerm ts).result = some (t, [])) : treeExpression ts = .crash := by
  obtain ⟨a, f, hF⟩ := Outcome.result_eq_some h
  unfold treeTerm at hF
  rw [treeExpression_unfold]
  unfold treeExpressionBody
  simp only [hF, valueOperatorPM]

/-- Claim C17: the claim asks that the layer fall back to the single operand whenever
no operator with a parsable right operand follows. On the code this is what happens on
the tokens `2 *` and `1 +`; on the token `1`, where nothing follows the term, and on
`2 * ( 1`, where no parsable factor follows the operator, the call does not return. -/
theorem C17_fallback_does_not_return_at_end_of_tokens :
    (treeTerm [.number 2, .symbol '*']).result
        = some (.number 2 .null .null, [.symbol '*'])
      ∧ (treeExpression [.number 1, .symbol '+']).result
        = some (.number 1 .null .null, [.symbol '+'])
      ∧ (treeTerm [.number 1]).result = some (.number 1 .null .null, [])
      ∧ treeExpression [.number 1] = .crash
      ∧ (treeFactor [.number 2, .symbol '*', .symbol '(', .number 1]).result
        = some (.number 2 .null .null, [.symbol '*', .symbol '(', .number 1])
      ∧ treeFactor [.symbol '(', .number 1] = .crash
      ∧ treeTerm [.number 2, .symbol '*', .symbol '(', .number 1] = .crash :=
  ⟨rfl, rfl, rfl, rfl, rfl, rfl, rfl⟩

theorem treeTermWith_fail_slot {e : List Token → Outcome} {lp l : List Token}
    {tp : Option ExpTree} {a f : Nat}
    (h : treeTermWith e lp = .fail l tp a f) :
    tp = none ∧ (treeFactorWith e lp).failed = true := by
  unfold treeTermWith at h
  cases hF : treeFactorWith e lp with
  | crash => simp [hF] at h
  | timeout => simp [hF] at h
  | fail _ _ _ _ =>
    simp only [hF, Outcome.fail.injEq] at h
    exact ⟨h.2.1.symm, rfl⟩
  | ok copyL tL a0 f0 =>
    simp only [hF] at h
    rcases hv : valueOperatorTD copyL with ⟨_ | c, copyL1⟩
    · simp [hv, treeTermElse, hF] at h
    · simp only [hv] at h
      cases hR : treeFactorWith e copyL1 <;> simp [hR, treeTermElse, hF] at h

theorem treeExpressionBody_fail_slot {e : List Token → Outcome} {lp l : List Token}
    {tp : Option ExpTree} {a f : Nat}
    (h : treeExpressionBody e lp = .fail l tp a f) :
    tp = none ∧ (treeTermWith e lp).failed = true := by
  unfold treeExpressionBody at h
  cases hF : treeTermWith e lp with
  | crash => simp [hF] at h
  | timeout => simp [hF] at h
  | fail _ _ _ _ =>
    simp only [hF, Outcome.fail.injEq] at h
    exact ⟨h.2.1.symm, rfl⟩
  | ok copyL tL a0 f0 =>
    simp only [hF] at h
    rcases hv : valueOperatorPM copyL with _ | ⟨_ | c, copyL1⟩
    · simp [hv] at h
    · simp [hv, treeExpressionElse, hF] at h
    · simp only [hv] at h
      cases hR : e copyL1 <;> simp [hR, treeExpressionElse, hF] at h

/-- The retry of `treeTerm` never fails: a failed `treeTerm` is a failed first
`treeFactor`, and it stores nothing in the output slot. -/
theorem treeTerm_failed_iff (ts : List Token) :
    (treeTerm ts).failed = true ↔ (treeFactor ts).failed = true := by
  constructor
  · intro h
    cases hT : treeTerm ts with
    | crash => simp [hT, Outcome.failed] at h
    | timeout => simp [hT, Outcome.failed] at h
    | ok _ _ _ _ => simp [hT, Outcome.failed] at h
    | fail l tp a f => exact (treeTermWith_fail_slot hT).2
  · intro h
    unfold treeFactor at h
    unfold treeTerm treeTermWith
    cases hF : treeFactorWith treeExpression ts <;> simp [hF, Outcome.failed] at h ⊢

/-- The retry of `treeExpression` never fails: a failed `treeExpression` is a failed
first `treeTerm`. -/
theorem treeExpression_failed_iff (ts : List Token) :
    (treeExpression ts).failed = true ↔ (treeTerm ts).failed = true := by
  constructor
  · intro h
    cases hT : treeExpression ts with
    | crash => simp [hT, Outcome.failed] at h
    | timeout => simp [hT, Outcome.failed] at h
    | ok _ _ _ _ => simp [hT, Outcome.failed] at h
    | fail l tp a f =>
      rw [treeExpression_unfold] at hT
      exact (treeExpressionBody_fail_slot hT).2
  · intro h
    unfold treeTerm at h
    rw [treeExpression_unfold]
    unfold treeExpressionBody
    cases hF : treeTermWith treeExpression ts <;> simp [hF, Outcome.failed] at h ⊢

/-- A failed `treeTerm` or `treeExpression` has stored nothing in the output slot of
its caller. -/
theorem fail_slot_untouched (ts l : List Token) (tp : Option ExpTree) (a f : Nat) :
    (treeTerm ts = .fail l tp a f → tp = none) ∧
      (treeExpression ts = .fail l tp a f → tp = none) := by
  constructor
  · intro h
    exact (treeTermWith_fail_slot h).1
  · intro h
    rw [treeExpression_unfold] at h
    exact (treeExpressionBody_fail_slot h).1

/-- A successful outer layer has a successful inner layer. -/
theorem success_of_outer_success (ts : List Token) :
    ((treeTerm ts).result.isSome = true → (treeFactor ts).result.isSome = true) ∧
      ((treeExpression ts).result.isSome = true → (treeTerm ts).result.isSome = true) := by
  constructor
  · intro h
    unfold treeTerm treeTermWith at h
    unfold treeFactor
    cases hF : treeFactorWith treeExpression ts <;> simp [hF, Outcome.result] at h ⊢
  · intro h
    rw [treeExpression_unfold] at h
    unfold treeExpressionBody at h
    unfold treeTerm
    cases hF : treeTermWith treeExpression ts <;> simp [hF, Outcome.result] at h ⊢

/-- Claim C19: the claim asks that the three layers succeed on the same cursors. On
the token `1` the term layer succeeds and the expression layer does not return; on the
tokens `2 * ( 1` the factor layer succeeds and the term layer does not return. -/
theorem C19_layers_do_not_succeed_on_same_cursors :
    ¬ ((treeExpression [.number 1]).result.isSome = true ↔
        (treeTerm [.number 1]).result.isSome = true)
      ∧ ¬ ((treeTerm [.number 2, .symbol '*', .symbol '(', .number 1]).result.isSome = true ↔
        (treeFactor [.number 2, .symbol '*', .symbol '(', .number 1]).result.isSome = true) := by
  constructor
  · intro h
    exact absurd (h.2 rfl) (by decide)
  · intro h
    exact absurd (h.2 rfl) (by decide)

theorem fourOps_symbol {c : Char} {l r : ExpTree} (h : fourOps (.symbol c l r) = true) :
    (isOperatorTD c = true ∨ isOperatorPM c = true) ∧ fourOps l = true ∧ fourOps r = true := by
  simp only [fourOps, Bool.and_eq_true, Bool.or_eq_true, beq_iff_eq] at h
  refine ⟨?_, h.1.2, h.2⟩
  rcases h.1.1 with ((h | h) | h) | h <;> subst h <;> simp [isOperatorTD, isOperatorPM]

/-- Parsing undoes rendering at the factor layer: on the tokens of the rendering of a
tree, followed by any tokens, `treeFactor` returns the tree and stops behind them. -/
theorem treeFactor_toks (t : ExpTree) (hs : wellShaped t = true) (ho : fourOps t = true) :
    ∀ rest : List Token, (treeFactor (toks t ++ rest)).result = some (t, rest) := by
  induction t with
  | null => simp [wellShaped] at hs
  | number n l r _ _ =>
    obtain ⟨rfl, rfl⟩ := wellShaped_number hs
    intro rest
    rfl
  | identifier s l r _ _ =>
    intro rest
    cases l <;> cases r <;> simp [wellShaped] at hs
    rfl
  | symbol c l r ihl ihr =>
    intro rest
    obtain ⟨hsl, hsr⟩ := wellShaped_symbol hs
    obtain ⟨hc, hol, hor⟩ := fourOps_symbol ho
    have hL := ihl hsl hol
    have hR := ihr hsr hor
    -- the right operand, read up to the closing parenthesis
    have hRt : (treeTerm (toks r ++ .symbol ')' :: rest)).result
        = some (r, .symbol ')' :: rest) :=
      treeTerm_fallback _ _ _ (hR _) (fun c1 rest1 h1 h2 => by
        simp only [List.cons.injEq, Token.symbol.injEq] at h1
        rw [← h1.1] at h2
        simp [isOperatorTD] at h2)
    have hRe : (treeExpression (toks r ++ .symbol ')' :: rest)).result
        = some (r, .symbol ')' :: rest) :=
      treeExpression_fallback _ _ _ hRt (by simp) (fun c1 rest1 h1 h2 => by
        simp only [List.cons.injEq, Token.symbol.injEq] at h1
        rw [← h1.1] at h2
        simp [isOperatorPM] at h2)
    have hlist : toks (.symbol c l r) ++ rest
        = .symbol '(' :: (toks l ++ .symbol c :: (toks r ++ .symbol ')' :: rest)) := by
      simp [toks]
    rw [hlist]
    apply treeFactor_paren
    rcases hc with hc | hc
    · -- multiplicative operator: the term layer builds the node
      have hT : (treeTerm (toks l ++ .symbol c :: (toks r ++ .symbol ')' :: rest))).result
          = some (.symbol c l r, .symbol ')' :: rest) :=
        treeTerm_multiplicative _ _ _ _ _ _ (hL _) hc (hR _)
      exact treeExpression_fallback _ _ _ hT (by simp) (fun c1 rest1 h1 h2 => by
        simp only [List.cons.injEq, Token.symbol.injEq] at h1
        rw [← h1.1] at h2
        simp [isOperatorPM] at h2)
    · -- additive operator: the expression layer builds the node
      have hT : (treeTerm (toks l ++ .symbol c :: (toks r ++ .symbol ')' :: rest))).result
          = some (l, .symbol c :: (toks r ++ .symbol ')' :: rest)) :=
        treeTerm_fallback _ _ _ (hL _) (fun c1 rest1 h1 h2 => by
          simp only [List.cons.injEq, Token.symbol.injEq] at h1
          rw [← h1.1] at h2
          rcases isOperatorPM_cases hc with h | h <;> subst h <;> simp [isOperatorTD] at h2)
      exact treeExpression_additive _ _ _ _ _ _ hT hc hRe

/-- Parsing undoes rendering at the term layer, with the cursor at end-of-sequence. -/
theorem treeTerm_toks (t : ExpTree) (hs : wellShaped t = true) (ho : fourOps t = true) :
    (treeTerm (toks t)).result = some (t, []) := by
  have h := treeFactor_toks t hs ho []
  rw [List.append_nil] at h
  exact treeTerm_fallback _ _ _ h (fun c rest h1 _ => by simp at h1)

/-- Claim C18: the claim asks that `treeExpression` on the tokens of the rendering of
a tree return that tree with the cursor at end-of-sequence. On the code, for every tree
with two children at each Symbol node and operators among the four, `treeTerm` returns
the tree with the cursor at end-of-sequence and `treeExpression` then does not
return. -/
theorem C18_treeExpression_on_rendering_does_not_return (t : ExpTree)
    (hs : wellShaped t = true) (ho : fourOps t = true) :
    (treeTerm (toks t)).result = some (t, []) ∧ treeExpression (toks t) = .crash :=
  ⟨treeTerm_toks t hs ho, treeExpression_crash_of_treeTerm_nil _ _ (treeTerm_toks t hs ho)⟩

/-- Witness for C18: the tree of `(1 + (x * 2))`. -/
theorem C18_witness :
    toks (.symbol '+' (.number 1 .null .null)
        (.symbol '*' (.identifier "x" .null .null) (.number 2 .null .null)))
        = [.symbol '(', .number 1, .symbol '+', .symbol '(', .identifier "x", .symbol '*',
            .number 2, .symbol ')', .symbol ')']
      ∧ (treeTerm [.symbol '(', .number 1, .symbol '+', .symbol '(', .identifier "x",
            .symbol '*', .number 2, .symbol ')', .symbol ')']).result
        = some (.symbol '+' (.number 1 .null .null)
            (.symbol '*' (.identifier "x" .null .null) (.number 2 .null .null)), [])
      ∧ treeExpression [.symbol '(', .number 1, .symbol '+', .symbol '(', .identifier "x",
            .symbol '*', .number 2, .symbol ')', .symbol ')'] = .crash :=
  ⟨rfl,
   (C18_treeExpression_on_rendering_does_not_return
      (.symbol '+' (.number 1 .null .null)
        (.symbol '*' (.identifier "x" .null .null) (.number 2 .null .null))) rfl rfl).1,
   (C18_treeExpression_on_rendering_does_not_return
      (.symbol '+' (.number 1 .null .null)
        (.symbol '*' (.identifier "x" .null .null) (.number 2 .null .null))) rfl rfl).2⟩

theorem treeFactorWith_ok_suffix {e : List Token → Outcome}
    (hs : ∀ l l1 t a f, e l = .ok l1 t a f → l1 <:+ l)
    {lp l1 : List Token} {t : ExpTree} {a f : Nat}
    (h : treeFactorWith e lp = .ok l1 t a f) : l1 <:+ lp := by
  match lp with
  | [] => simp [treeFactorWith_nil] at h
  | .number _ :: l =>
    simp only [treeFactorWith_number, Outcome.ok.injEq] at h
    rw [← h.1]; exact List.suffix_cons _ _
  | .identifier _ :: l =>
    simp only [treeFactorWith_identifier, Outcome.ok.injEq] at h
    rw [← h.1]; exact List.suffix_cons _ _
  | .symbol c :: l =>
    by_cases hc : c = '('
    · subst hc
      rw [treeFactorWith_paren] at h
      have h1 := hs _ _ _ _ _ (closeParen_ok h)
      exact ((List.suffix_cons _ _).trans h1).trans (List.suffix_cons _ _)
    · simp [treeFactorWith_symbol _ _ _ hc] at h

theorem treeTermElse_ok_suffix {e : List Token → Outcome}
    (hs : ∀ l l1 t a f, e l = .ok l1 t a f → l1 <:+ l)
    {lp l1 : List Token} {tL t : ExpTree} {a0 f0 a f : Nat}
    (h : treeTermElse e lp tL a0 f0 = .ok l1 t a f) : l1 <:+ lp := by
  unfold treeTermElse at h
  cases hF : treeFactorWith e lp with
  | crash => simp [hF] at h
  | timeout => simp [hF] at h
  | fail _ _ _ _ => simp [hF] at h
  | ok l2 t2 a2 f2 =>
    simp only [hF, Outcome.ok.injEq] at h
    rw [← h.1]
    exact treeFactorWith_ok_suffix hs hF

theorem treeTermWith_ok_suffix {e : List Token → Outcome}
    (hs : ∀ l l1 t a f, e l = .ok l1 t a f → l1 <:+ l)
    {lp l1 : List Token} {t : ExpTree} {a f : Nat}
    (h : treeTermWith e lp = .ok l1 t a f) : l1 <:+ lp := by
  unfold treeTermWith at h
  cases hF : treeFactorWith e lp with
  | crash => simp [hF] at h
  | timeout => simp [hF] at h
  | fail _ _ _ _ => simp [hF] at h
  | ok copyL tL a0 f0 =>
    simp only [hF] at h
    have hsuf := treeFactorWith_ok_suffix hs hF
    rcases hv : valueOperatorTD copyL with ⟨_ | c, copyL1⟩
    · simp only [hv] at h
      exact treeTermElse_ok_suffix hs h
    · simp only [hv] at h
      cases hR : treeFactorWith e copyL1 with
      | crash => simp [hR] at h
      | timeout => simp [hR] at h
      | fail _ _ a2 f2 =>
        simp only [hR] at h
        exact treeTermElse_ok_suffix hs h
      | ok copyL2 tR a2 f2 =>
        simp only [hR, Outcome.ok.injEq] at h
        have h2 := treeFactorWith_ok_suffix hs hR
        have h3 := (valueOperatorTD_some hv).1
        rw [h3] at hsuf
        rw [← h.1]
        exact (h2.trans (List.suffix_cons _ _)).trans hsuf

theorem treeExpressionElse_ok_suffix {e : List Token → Outcome}
    (hs : ∀ l l1 t a f, e l = .ok l1 t a f → l1 <:+ l)
    {lp l1 : List Token} {tL t : ExpTree} {a0 f0 a f : Nat}
    (h : treeExpressionElse e lp tL a0 f0 = .ok l1 t a f) : l1 <:+ lp := by
  unfold treeExpressionElse at h
  cases hF : treeTermWith e lp with
  | crash => simp [hF] at h
  | timeout => simp [hF] at h
  | fail _ _ _ _ => simp [hF] at h
  | ok l2 t2 a2 f2 =>
    simp only [hF, Outcome.ok.injEq] at h
    rw [← h.1]
    exact treeTermWith_ok_suffix hs hF

theorem treeExpressionBody_ok_suffix {e : List Token → Outcome}
    (hs : ∀ l l1 t a f, e l = .ok l1 t a f → l1 <:+ l)
    {lp l1 : List Token} {t : ExpTree} {a f : Nat}
    (h : treeExpressionBody e lp = .ok l1 t a f) : l1 <:+ lp := by
  unfold treeExpressionBody at h
  cases hF : treeTermWith e lp with
  | crash => simp [hF] at h
  | timeout => simp [hF] at h
  | fail _ _ _ _ => simp [hF] at h
  | ok copyL tL a0 f0 =>
    simp only [hF] at h
    have hsuf := treeTermWith_ok_suffix hs hF
    rcases hv : valueOperatorPM copyL with _ | ⟨_ | c, copyL1⟩
    · simp [hv] at h
    · simp only [hv] at h
      exact treeExpressionElse_ok_suffix hs h
    · simp only [hv] at h
      cases hR : e copyL1 with
      | crash => simp [hR] at h
      | timeout => simp [hR] at h
      | fail _ _ a2 f2 =>
        simp only [hR] at h
        exact treeExpressionElse_ok_suffix hs h
      | ok copyL2 tR a2 f2 =>
        simp only [hR, Outcome.ok.injEq] at h
        have h2 := hs _ _ _ _ _ hR
        have h3 := (valueOperatorPM_some hv).1
        rw [h3] at hsuf
        rw [← h.1]
        exact (h2.trans (List.suffix_cons _ _)).trans hsuf

/-- The cursor returned by a successful `treeExpression` is a suffix of the cursor it
was given. -/
theorem treeExpression_ok_suffix :
    ∀ l l1 t a f, treeExpression l = .ok l1 t a f → l1 <:+ l := by
  have key : ∀ n l l1 t a f, treeExpressionFuel n l = .ok l1 t a f → l1 <:+ l := by
    intro n
    induction n with
    | zero => intro l l1 t a f h; simp [treeExpressionFuel] at h
    | succ n ih =>
      intro l l1 t a f h
      exact treeExpressionBody_ok_suffix ih h
  intro l l1 t a f h
  exact key _ _ _ _ _ _ h

/-- The result of `treeExpression` on a cursor is determined by the results of its
recursive calls on strictly shorter cursors. -/
theorem treeExpressionBody_local (ts : List Token) (e : List Token → Outcome)
    (he : ∀ l : List Token, l.length < ts.length → e l = treeExpression l) :
    treeExpressionBody e ts = treeExpression ts := by
  obtain ⟨g, hg⟩ : ∃ g : List Token → Outcome,
      ∀ l, g l = if l.length < ts.length then treeExpression l else Outcome.timeout :=
    ⟨_, fun _ => rfl⟩
  have h0 : ∀ l, g l ≠ .timeout → l.length < ts.length := by
    intro l hl
    by_contra hc
    rw [hg l] at hl
    simp [hc] at hl
  have hne : treeExpressionBody g ts ≠ .timeout := by
    apply treeExpressionBody_ne_timeout
    · intro l l1 t a f h
      rw [hg l] at h
      by_cases hl : l.length < ts.length
      · simp only [hl, if_true] at h
        exact treeExpression_ok_length h
      · simp [hl] at h
    · intro l hl
      rw [hg l]
      simp only [hl, if_true]
      exact treeExpression_ne_timeout l
  have h1 : treeExpressionBody e ts = treeExpressionBody g ts :=
    treeExpressionBody_mono (fun l hl => by
      have hlt := h0 l hl
      rw [hg l]
      simp only [hlt, if_true]
      exact he l hlt) ts hne
  have h2 : treeExpressionBody treeExpression ts = treeExpressionBody g ts :=
    treeExpressionBody_mono (fun l hl => by
      have hlt := h0 l hl
      rw [hg l]
      simp only [hlt, if_true]) ts hne
  rw [h1, ← h2, ← treeExpression_unfold]

/-- Claim C20: the parser terminates and makes progress. The recursion of
`treeExpression` on a cursor only uses its results on strictly shorter cursors, so a
recursion depth above the number of tokens always gives the result and none of the
three functions runs forever; and whenever one of them succeeds, the returned cursor is
a proper suffix of the cursor it was given. -/
theorem C20_parser_terminates_and_progresses (ts : List Token) :
    (∀ e : List Token → Outcome,
        (∀ l : List Token, l.length < ts.length → e l = treeExpression l) →
        treeExpressionBody e ts = treeExpression ts) ∧
      (∀ n, ts.length < n → treeExpressionFuel n ts = treeExpression ts) ∧
      treeFactor ts ≠ .timeout ∧ treeTerm ts ≠ .timeout ∧ treeExpression ts ≠ .timeout ∧
      (∀ t r, ((treeFactor ts).result = some (t, r) ∨ (treeTerm ts).result = some (t, r) ∨
          (treeExpression ts).result = some (t, r)) →
        r <:+ ts ∧ r.length < ts.length) := by
  refine ⟨treeExpressionBody_local ts, fun n hn => ?_, treeFactor_ne_timeout ts,
    treeTerm_ne_timeout ts, treeExpression_ne_timeout ts, fun t r h => ?_⟩
  · exact (treeExpression_eq_fuel n ts (treeExpressionFuel_ne_timeout n ts hn)).symm
  · rcases h with h | h | h
    · obtain ⟨a, f, h1⟩ := Outcome.result_eq_some h
      exact ⟨treeFactorWith_ok_suffix treeExpression_ok_suffix h1,
        treeFactorWith_ok_length (fun _ _ _ _ _ he => treeExpression_ok_length he) h1⟩
    · obtain ⟨a, f, h1⟩ := Outcome.result_eq_some h
      exact ⟨treeTermWith_ok_suffix treeExpression_ok_suffix h1,
        treeTermWith_ok_length (fun _ _ _ _ _ he => treeExpression_ok_length he) h1⟩
    · obtain ⟨a, f, h1⟩ := Outcome.result_eq_some h
      exact ⟨treeExpression_ok_suffix _ _ _ _ _ h1, treeExpression_ok_length h1⟩

/-- Witness for C20: on the tokens `( 1 + 2 ) * 3 x` a recursion depth of 9 gives the
result of `treeExpression`, which leaves the one token `x`. -/
theorem C20_witness :
    treeExpressionFuel 9 [.symbol '(', .number 1, .symbol '+', .number 2, .symbol ')',
        .symbol '*', .number 3, .identifier "x"]
        = treeExpression [.symbol '(', .number 1, .symbol '+', .number 2, .symbol ')',
            .symbol '*', .number 3, .identifier "x"]
      ∧ ([.identifier "x"] : List Token) <:+ [.symbol '(', .number 1, .symbol '+',
          .number 2, .symbol ')', .symbol '*', .number 3, .identifier "x"]
      ∧ ([.identifier "x"] : List Token).length
          < ([.symbol '(', .number 1, .symbol '+', .number 2, .symbol ')',
              .symbol '*', .number 3, .identifier "x"] : List Token).length :=
  ⟨(C20_parser_terminates_and_progresses _).2.1 9 (by decide),
   ((C20_parser_terminates_and_progresses
      [.symbol '(', .number 1, .symbol '+', .number 2, .symbol ')',
        .symbol '*', .number 3, .identifier "x"]).2.2.2.2.2
      (.symbol '*' (.symbol '+' (.number 1 .null .null) (.number 2 .null .null))
        (.number 3 .null .null)) [.identifier "x"] (Or.inr (Or.inr rfl))).1,
   ((C20_parser_terminates_and_progresses
      [.symbol '(', .number 1, .symbol '+', .number 2, .symbol ')',
        .symbol '*', .number 3, .identifier "x"]).2.2.2.2.2
      (.symbol '*' (.symbol '+' (.number 1 .null .null) (.number 2 .null .null))
        (.number 3 .null .null)) [.identifier "x"] (Or.inr (Or.inr rfl))).2⟩

end InfixExp
